import Mathlib

/-!
# Update-Manager: verification of the parsing / version-reconciliation core

Shallow embedding of the TypeScript sources of the Update-Manager repository
(`src/providers/parsers.ts`, `src/providers/base.ts`, `src/index.ts`, the
second revision of `parsers.ts`, and the WinGet adapter's `updatePackage`),
together with theorems settling the frozen claims about the program.

JavaScript-level primitives (`indexOf`, `substring`, `includes`, `split`,
`Number`, `JSON.parse`, `Object.entries`) are modelled explicitly below with
their JavaScript semantics, restricted where noted to the input shapes the
program feeds them.
-/

namespace UpdateManager

/-! ## JavaScript string primitives -/

/-- JS `String.prototype.includes(sub)`: substring containment. -/
def jsIncludes (s sub : String) : Bool :=
  go s.toList sub.toList
where
  go : List Char → List Char → Bool
  | [], needle => needle.isEmpty
  | c :: cs, needle => needle.isPrefixOf (c :: cs) || go cs needle

/-- JS `String.prototype.indexOf(sub)`: character index of the first
occurrence, `-1` when absent. -/
def jsIndexOf (s sub : String) : Int :=
  go s.toList sub.toList 0
where
  go : List Char → List Char → Nat → Int
  | [], needle, idx => if needle.isEmpty then (idx : Int) else -1
  | c :: cs, needle, idx =>
    if needle.isPrefixOf (c :: cs) then (idx : Int) else go cs needle (idx + 1)

/-- Clamp a JS index argument into `[0, len]` (as `substring` does). -/
def jsClamp (len : Nat) (i : Int) : Nat :=
  (max i 0).toNat.min len

/-- JS `String.prototype.substring(a, b)`: both indices clamped into range,
swapped when `a > b`. -/
def jsSubstring (s : String) (a b : Int) : String :=
  let cs := s.toList
  let x := jsClamp cs.length a
  let y := jsClamp cs.length b
  let lo := min x y
  let hi := max x y
  String.mk ((cs.drop lo).take (hi - lo))

/-- JS `String.prototype.substring(a)` (one-argument form): suffix from the
clamped index. -/
def jsSubstringFrom (s : String) (a : Int) : String :=
  String.mk (s.toList.drop (jsClamp s.toList.length a))

/-- JS whitespace (the characters `\s` matches that occur in this program's
inputs: space, tab, CR, LF, FF, VT — we use Lean's `Char.isWhitespace` which
covers them). -/
def jsIsWs (c : Char) : Bool := c.isWhitespace

/-- JS `String.prototype.split(sep)` for a single-character separator, on
character lists.  `"".split(sep) = [""]`, separators at the ends produce
empty fields — exactly JS behavior. -/
def splitOnChar (sep : Char) : List Char → List (List Char)
  | [] => [[]]
  | c :: rest =>
    match splitOnChar sep rest with
    | [] => [[c]]
    | t :: ts => if c = sep then [] :: t :: ts else (c :: t) :: ts

/-- JS `s.split(sep)` for a single-character separator. -/
def jsSplit (s : String) (sep : Char) : List String :=
  (splitOnChar sep s.toList).map String.mk

/-- Join character lists with a separator character (used to model
`replace` on the final line of a multi-line string). -/
def joinChar (sep : Char) : List (List Char) → List Char
  | [] => []
  | [x] => x
  | x :: y :: xs => x ++ sep :: joinChar sep (y :: xs)

/-- JS `String.prototype.trim()` on a character list. -/
def jsTrimChars (cs : List Char) : List Char :=
  ((cs.dropWhile jsIsWs).reverse.dropWhile jsIsWs).reverse

/-- JS `String.prototype.trim()`. -/
def jsTrim (s : String) : String :=
  String.mk (jsTrimChars s.toList)

/-- Worker for `jsWsTokens`: `acc` is the current (reversed) token;
whitespace closes the token. -/
def wsTokensGo : List Char → List Char → List String
  | [], acc => if acc.isEmpty then [] else [String.mk acc.reverse]
  | c :: cs, acc =>
    if jsIsWs c then
      if acc.isEmpty then wsTokensGo cs []
      else String.mk acc.reverse :: wsTokensGo cs []
    else wsTokensGo cs (c :: acc)

/-- `line.split(/\s+/).filter(Boolean)`: maximal non-whitespace runs. -/
def jsWsTokens (s : String) : List String :=
  wsTokensGo s.toList []

/-- Worker for `twoWsTokens`: `acc` holds the current token reversed; a
whitespace character followed by another whitespace character ends the
token, after which the remainder of the whitespace run is skipped
(`skipping = true`). -/
def twoWsTokensGo : List Char → List Char → Bool → List String
  | [], acc, _ => [String.mk acc.reverse]
  | c :: cs, acc, skipping =>
    if skipping then
      if jsIsWs c then twoWsTokensGo cs acc true
      else twoWsTokensGo cs [c] false
    else if jsIsWs c && jsIsWs (cs.headD 'x') then
      String.mk acc.reverse :: twoWsTokensGo cs [] true
    else twoWsTokensGo cs (c :: acc) false

/-- Tokenization on runs of at least 2 whitespace characters
(`split(/\s{2,}/)` followed by `filter(Boolean)`), as the *spec* describes
the pnpm table fallback.  Used only to state the claim's (refuted)
tokenization rule; the source splits on `/\s+/`. -/
def twoWsTokens (s : String) : List String :=
  (twoWsTokensGo s.toList [] false).filter (· ≠ "")

/-! ## JS `Number(...)` on version segments

`isNewerVersion` maps `Number` over dot-separated segments and then applies
`|| 0`, which collapses `NaN`, `undefined` and `0` to `0`.  We model
`Number(s)` as `Option JsNum` (`none` = `NaN`), where `JsNum` is an exact
decimal (integer numerator over a power-of-ten denominator; JS number
rounding to binary doubles cannot distinguish any pair of values this
program ever compares).  Whitespace is trimmed, the empty string is `0`, and
a decimal numeral (optional sign, optional fractional part, optional
exponent) is parsed exactly; other strings — including every non-numeric
segment the program meets, such as `"unknown"` — are `NaN`.  (JS
additionally accepts hex/binary literals and `Infinity`, which never occur
in version segments and are modelled as `NaN`.) -/

/-- Exact decimal value: `num / den` with `den` a (positive) power of ten. -/
structure JsNum where
  num : Int
  den : Int
deriving Repr, DecidableEq

/-- Value comparison of exact decimals by cross-multiplication (the
denominators constructed below are always positive). -/
def jsNumLt (a b : JsNum) : Bool := a.num * b.den < b.num * a.den

/-- Value equality of exact decimals. -/
def jsNumValEq (a b : JsNum) : Bool := a.num * b.den = b.num * a.den

def pow10 (k : Nat) : Int := (10 : Int) ^ k

/-- Scale an exact decimal by `10 ^ e`. -/
def applyExp (q : JsNum) (e : Int) : JsNum :=
  match e with
  | .ofNat k => ⟨q.num * pow10 k, q.den⟩
  | .negSucc k => ⟨q.num, q.den * pow10 (k + 1)⟩

/-- Numeric value of a list of decimal digits (most significant first). -/
def digitsToNat (cs : List Char) : Nat :=
  cs.foldl (fun acc c => acc * 10 + (c.toNat - '0'.toNat)) 0

/-- Exponent/suffix part of a JS decimal literal: empty, or `e`/`E` with an
optionally signed digit run. -/
def parseExpSuffix (cs : List Char) : Option Int :=
  match cs with
  | [] => some 0
  | e :: rest =>
    if e = 'e' ∨ e = 'E' then
      let (sign, ds) : Int × List Char :=
        match rest with
        | '+' :: r => (1, r)
        | '-' :: r => (-1, r)
        | r => (1, r)
      if ds ≠ [] ∧ ds.all Char.isDigit then some (sign * (digitsToNat ds : Int))
      else none
    else none

/-- Unsigned decimal part of a JS numeric literal (digits, optional `.`
fraction, optional exponent), returning its exact decimal value. -/
def parseDecimal (cs : List Char) : Option JsNum :=
  let intPart := cs.takeWhile Char.isDigit
  let rest := cs.dropWhile Char.isDigit
  match rest with
  | '.' :: r2 =>
    let fracPart := r2.takeWhile Char.isDigit
    let rest2 := r2.dropWhile Char.isDigit
    if intPart = [] ∧ fracPart = [] then none
    else
      match parseExpSuffix rest2 with
      | none => none
      | some e =>
        some (applyExp
          ⟨(digitsToNat intPart : Int) * pow10 fracPart.length + (digitsToNat fracPart : Int),
            pow10 fracPart.length⟩ e)
  | _ =>
    if intPart = [] then none
    else
      match parseExpSuffix rest with
      | none => none
      | some e => some (applyExp ⟨(digitsToNat intPart : Int), 1⟩ e)

/-- JS `Number` on a character list (`none` = `NaN`). -/
def jsNumberChars (cs : List Char) : Option JsNum :=
  match jsTrimChars cs with
  | [] => some ⟨0, 1⟩
  | '+' :: r => parseDecimal r
  | '-' :: r => (parseDecimal r).map (fun q => ⟨-q.num, q.den⟩)
  | t => parseDecimal t

/-- JS `Number(s)` (decimal fragment), `none` = `NaN`. -/
def jsNumber (s : String) : Option JsNum :=
  jsNumberChars s.toList

/-! ## The version comparator (`isNewerVersion`, `src/providers/parsers.ts`) -/

/-- JS `s.replace(re, "")` for the regex `-.*$` : since `.` does not match a newline and `$`
(without the `m` flag) matches only at end of input, the regex removes
everything from the first `-` **after the last newline**; dashes on earlier
lines are untouched.  For the newline-free version strings the program
compares, this is simply "drop everything from the first dash". -/
def cleanVersion (s : String) : String :=
  let parts := splitOnChar '\n' s.toList
  let lastLine := parts.getLastD []
  String.mk (joinChar '\n' (parts.dropLast ++ [(splitOnChar '-' lastLine).headD lastLine]))

/-- `x || 0` applied to a `Number` result: `NaN` and missing values become
`0`.  (JS `-0` is also falsy and becomes `+0`, but `JsNum` does not
distinguish signed zeros and both compare equal to `0`.) -/
def orZero (o : Option JsNum) : JsNum := o.getD ⟨0, 1⟩

/-- Tail of the comparison loop of `isNewerVersion` once the current-version
segments are exhausted (missing entries read as `0`). -/
def segCmpNilLeft : List (Option JsNum) → Option Bool
  | [] => none
  | n :: ns =>
    if jsNumLt ⟨0, 1⟩ (orZero n) then some true
    else if jsNumLt (orZero n) ⟨0, 1⟩ then some false
    else segCmpNilLeft ns

/-- Tail of the comparison loop of `isNewerVersion` once the new-version
segments are exhausted (missing entries read as `0`). -/
def segCmpNilRight : List (Option JsNum) → Option Bool
  | [] => none
  | c :: cs =>
    if jsNumLt (orZero c) ⟨0, 1⟩ then some true
    else if jsNumLt ⟨0, 1⟩ (orZero c) then some false
    else segCmpNilRight cs

/-- The comparison loop of `isNewerVersion`: walk both segment lists,
missing entries as `0`; `some true` / `some false` are the early returns
(`next > curr` / `next < curr`), `none` means every compared segment was
equal. -/
def segCmp : List (Option JsNum) → List (Option JsNum) → Option Bool
  | [], ns => segCmpNilLeft ns
  | c :: cs, [] =>
    if jsNumLt (orZero c) ⟨0, 1⟩ then some true
    else if jsNumLt ⟨0, 1⟩ (orZero c) then some false
    else segCmpNilRight cs
  | c :: cs, n :: ns =>
    if jsNumLt (orZero c) (orZero n) then some true
    else if jsNumLt (orZero n) (orZero c) then some false
    else segCmp cs ns

/-- The dot-separated segments of the cleaned (suffix-stripped) version. -/
def baseSegs (v : String) : List String :=
  jsSplit (cleanVersion v) '.'


/-- Segment values of a version string as `isNewerVersion` computes them. -/
def versionParts (v : String) : List (Option JsNum) :=
  (baseSegs v).map jsNumber

/-- A version string is well formed when every segment of its base (the part
before the prerelease suffix) is a non-empty run of decimal digits, e.g.
`1.0.0`, `2.4`, `2.4.0-beta0`. -/
def isDigitSeg (s : String) : Bool :=
  !s.toList.isEmpty && s.toList.all Char.isDigit

/-- Numeric value of a digit segment. -/
def segNat (s : String) : Nat :=
  digitsToNat s.toList

/-- Well-formed version string: see `isDigitSeg`. -/
def wellFormedVersion (v : String) : Bool :=
  (baseSegs v).all isDigitSeg

/-- `isNewerVersion(currentVersion, newVersion)` from
`src/providers/parsers.ts` (lines 254–287).  The `try`/`catch` in the source
is dead code — none of `split`, `map(Number)`, `Math.max` or arithmetic can
throw — so the embedding is the `try` body. -/
def isNewerVersion (currentVersion newVersion : String) : Bool :=
  match segCmp (versionParts currentVersion) (versionParts newVersion) with
  | some b => b
  | none =>
    if jsIncludes currentVersion "-" && !(jsIncludes newVersion "-") then true
    else if !(jsIncludes currentVersion "-") && jsIncludes newVersion "-" then false
    else false

/-! ## Data model (`src/types.ts`, `src/providers/parsers.ts`) -/

/-- `PackageStatus` from `src/types.ts`. -/
inductive PackageStatus where
  | available
  | pinned
  | unknown
  | error
deriving DecidableEq, Repr

/-- `ParsedPackage` from `src/providers/parsers.ts`. -/
structure ParsedPackage where
  id : String
  name : String
  currentVersion : String
  newVersion : String
  status : PackageStatus
  source : Option String := none
  notes : Option String := none
deriving DecidableEq, Repr

/-! ## `parsePsModulesOutput` (`src/providers/parsers.ts`, lines 230–248) -/

/-- Parse PowerShell module output (pipe-separated).  JS destructuring of a
short array yields `undefined`, which is as falsy as the empty string, so
missing fields are modelled by `""`. -/
def parsePsModulesOutput (output : String) : List ParsedPackage :=
  let lines := (jsSplit output '\n').filter (fun l => jsTrim l ≠ "")
  lines.filterMap (fun line =>
    let fields := (jsSplit line '|').map jsTrim
    let name := fields.getD 0 ""
    let current := fields.getD 1 ""
    let latest := fields.getD 2 ""
    if name ≠ "" ∧ current ≠ "" ∧ latest ≠ "" then
      some { id := name, name := name, currentVersion := current,
             newVersion := latest, status := .available }
    else none)

/-! ## `parsePnpmTableOutput` (`src/providers/parsers.ts`, lines 199–225) -/

/-- Parse pnpm table output (fallback when JSON fails).  The source splits
each data line on `/\s+/` (runs of **one** or more whitespace characters)
and destructures `[name, current, , latest]`, skipping the third token. -/
def parsePnpmTableOutput (output : String) : List ParsedPackage :=
  (jsSplit output '\n').filterMap (fun line =>
    if jsTrim line = "" ∨ jsIncludes line "Package" ∨ line.startsWith "─" then
      none
    else
      let parts := jsWsTokens line
      if parts.length ≥ 3 then
        let name := parts.getD 0 ""
        let current := parts.getD 1 ""
        let latest := parts.getD 3 ""
        if current ≠ latest ∧ latest ≠ "" then
          some { id := name, name := name, currentVersion := current,
                 newVersion := latest, status := .available }
        else none
      else none)

/-! ## `parseProtoOutput` (`src/providers/parsers.ts`, lines 144–164)

Each non-blank line is matched against the anchored JS regex
`^(\w+)\s*[-–]?\s*([\d.]+)\s*(?:->|→)\s*([\d.]+)` .  The only regex element
that can backtrack against the rest of the pattern is the greedy `\w+`
(every other adjacent pair of elements draws from disjoint character
classes), so the matcher below tries word prefixes longest-first. -/

/-- JS `\w`: ASCII letters, digits, underscore. -/
def wordChar (c : Char) : Bool := c.isAlpha || c.isDigit || c = '_'

/-- JS `[\d.]`. -/
def digitDot (c : Char) : Bool := c.isDigit || c = '.'

/-- Match `\s*[-–]?\s*([\d.]+)\s*(?:->|→)\s*([\d.]+)` at the front of `cs`.
If the optional dash is consumed but the remainder fails, JS would retry
with the dash unconsumed — but then `[\d.]+` starts at a dash and fails
anyway, so no separate branch is needed. -/
def protoAfterWord (cs : List Char) : Option (String × String) :=
  let r1 := cs.dropWhile jsIsWs
  let r2 := match r1 with
            | '-' :: t => t.dropWhile jsIsWs
            | '–' :: t => t.dropWhile jsIsWs
            | _ => r1
  let cur := r2.takeWhile digitDot
  if cur = [] then none
  else
    let r3 := (r2.dropWhile digitDot).dropWhile jsIsWs
    let r4 := match r3 with
              | '-' :: '>' :: t => some t
              | '→' :: t => some t
              | _ => none
    match r4 with
    | none => none
    | some t =>
      let lat := (t.dropWhile jsIsWs).takeWhile digitDot
      if lat = [] then none else some (String.mk cur, String.mk lat)

/-- Backtracking over the greedy `\w+`: try the word prefix of length `k`,
then `k - 1`, …, down to `1`. -/
def protoGo : Nat → List Char → List Char → Option (String × String × String)
  | 0, _, _ => none
  | k + 1, w, rest =>
    match protoAfterWord (w.drop (k + 1) ++ rest) with
    | some (c, l) => some (String.mk (w.take (k + 1)), c, l)
    | none => protoGo k w rest

/-- Match the full proto line pattern at the start of a line. -/
def protoMatchLine (cs : List Char) : Option (String × String × String) :=
  let w := cs.takeWhile wordChar
  protoGo w.length w (cs.dropWhile wordChar)

/-- Parse Proto outdated output: every non-blank line matching the pattern
yields a record; there is no identical-version check. -/
def parseProtoOutput (output : String) : List ParsedPackage :=
  let lines := (jsSplit output '\n').filter (fun l => jsTrim l ≠ "")
  lines.filterMap (fun line =>
    match protoMatchLine line.toList with
    | some (tool, current, latest) =>
      some { id := tool, name := tool, currentVersion := current,
             newVersion := latest, status := .available }
    | none => none)

/-! ## The pnpm table row rule as the spec states it -/

/-- The pnpm-table row rule in the *spec's* wording, parameterized by the
tokenization: skip blank/header/border lines, tokenize, require at least 3
tokens, take the first token as id/name, the second as the current version
and the fourth as the latest, and emit only when they differ (a missing
fourth token, falsy in JS, never emits). -/
def pnpmRowSpec (tokenize : String → List String) (line : String) : Option ParsedPackage :=
  if jsTrim line = "" ∨ jsIncludes line "Package" ∨ line.startsWith "─" then none
  else if (tokenize line).length ≥ 3 then
    if (tokenize line).getD 1 "" ≠ (tokenize line).getD 3 "" ∧ (tokenize line).getD 3 "" ≠ "" then
      some { id := (tokenize line).getD 0 "", name := (tokenize line).getD 0 "",
             currentVersion := (tokenize line).getD 1 "", newVersion := (tokenize line).getD 3 "",
             status := .available }
    else none
  else none

/-! ## `parseWingetOutput` (`src/providers/parsers.ts`, lines 22–138)

The WinGet parser works in two phases: find every section (a header line
containing "Name"/"Id"/"Version" followed by a separator of ≥10 dashes,
with a bounded backward scan for pin markers), then slice each data row at
the column offsets taken from the header. -/

/-- `output.replace(re1, "\n").replace(re2, "\n")` for the regexes
`\r\n` (global) and `\r` (global): every CRLF collapses to LF, then every
remaining CR becomes LF.  The single left-to-right pass below computes the
same result as the two global passes. -/
def normNlChars : List Char → List Char
  | [] => []
  | '\r' :: '\n' :: t => '\n' :: normNlChars t
  | '\r' :: t => '\n' :: normNlChars t
  | c :: t => c :: normNlChars t

def normalizeNewlines (s : String) : String :=
  String.mk (normNlChars s.toList)

/-- JS `toLowerCase` (ASCII range; the scanned marker phrases are ASCII). -/
def jsToLower (s : String) : String :=
  String.mk (s.toList.map Char.toLower)

/-- A separator row: the trimmed line is at least 10 dashes
(`/^-{10,}$/`). -/
def isSeparatorLine (s : String) : Bool :=
  let t := (jsTrim s).toList
  decide (t.length ≥ 10) && t.all (· = '-')

/-- A dash-only row of any length (`/^-+$/` on the trimmed line). -/
def isDashRun (s : String) : Bool :=
  let t := (jsTrim s).toList
  !t.isEmpty && t.all (· = '-')

/-- Header detection: the raw line contains "Name", "Id" and "Version". -/
def isHeaderLine (s : String) : Bool :=
  jsIncludes s "Name" && jsIncludes s "Id" && jsIncludes s "Version"

/-- The column offsets read from a header line (`-1` when absent). -/
structure WingetCols where
  nameCol : Int
  idCol : Int
  versionCol : Int
  availableCol : Int
  sourceCol : Int
deriving Repr

def wingetCols (headerLine : String) : WingetCols :=
  { nameCol := jsIndexOf headerLine "Name"
    idCol := jsIndexOf headerLine "Id"
    versionCol := jsIndexOf headerLine "Version"
    availableCol := jsIndexOf headerLine "Available"
    sourceCol := jsIndexOf headerLine "Source" }

/-- A data row terminates its section when blank, a summary footer, or a
pin-message line. -/
def wingetStopLine (line : String) : Bool :=
  jsTrim line = "" || jsIncludes line "upgrade(s) available" ||
    jsIncludes line "upgrades available" || jsIncludes line "package(s) have" ||
    jsIncludes line "pin that needs" || jsIncludes line "pins that prevent"

/-- One discovered section of the first-revision parser. -/
structure WingetSection where
  headerIndex : Nat
  separatorIndex : Nat
  isPinned : Bool
deriving Repr, DecidableEq

/-- First-revision pin scan: `for (j = max(0, i-5); j < i-1; j++)`, looking
for the substrings `"pin"` / `"Pin"` in the raw lines. -/
def v1PinScan (lines : List String) (i : Nat) : Bool :=
  (List.range' (i - 5) ((i - 1) - (i - 5))).any (fun j =>
    jsIncludes (lines.getD j "") "pin" || jsIncludes (lines.getD j "") "Pin")

/-- Section discovery of the first-revision parser. -/
def v1Sections (lines : List String) : List WingetSection :=
  (List.range lines.length).filterMap (fun i =>
    if isSeparatorLine (lines.getD i "") then
      if 0 < i then
        if isHeaderLine (lines.getD (i - 1) "") then
          some ⟨i - 1, i, v1PinScan lines i⟩
        else none
      else none
    else none)

/-- The sliced-and-trimmed fields of a data row (offsets may be `-1` when a
column is absent; `substring` clamps and swaps exactly as in JS). -/
def wingetName (cols : WingetCols) (line : String) : String :=
  jsTrim (jsSubstring line cols.nameCol cols.idCol)

def wingetId (cols : WingetCols) (line : String) : String :=
  jsTrim (jsSubstring line cols.idCol cols.versionCol)

def wingetCurrent (cols : WingetCols) (line : String) : String :=
  jsTrim (jsSubstring line cols.versionCol cols.availableCol)

def wingetNew (cols : WingetCols) (line : String) : String :=
  if cols.sourceCol > 0 then jsTrim (jsSubstring line cols.availableCol cols.sourceCol)
  else jsTrim (jsSubstringFrom line cols.availableCol)

def wingetSource (cols : WingetCols) (line : String) : Option String :=
  if cols.sourceCol > 0 then some (jsTrim (jsSubstringFrom line cols.sourceCol))
  else none

/-- The status/notes pair after the unknown-version check, which runs last
in the source and overrides the section's `statusNotes`. -/
def wingetStatusNotes (sn : PackageStatus × Option String) (cols : WingetCols)
    (line : String) : PackageStatus × Option String :=
  if jsToLower (wingetCurrent cols line) = "unknown" ∨ wingetCurrent cols line = "" then
    (PackageStatus.unknown, some "Current version unknown")
  else sn

/-- Column extraction and record construction shared by both parser
revisions: skip dash-only rows, slice at the header offsets, drop rows with
no id or no new version, drop echoed header text, apply the status rules,
and emit only when the sliced versions differ. -/
def wingetRow (cols : WingetCols) (statusNotes : PackageStatus × Option String)
    (line : String) : Option ParsedPackage :=
  if isDashRun line then none
  else if wingetId cols line = "" ∨ wingetNew cols line = "" then none
  else if wingetId cols line = "Id" ∨ wingetName cols line = "Name" then none
  else if wingetCurrent cols line ≠ wingetNew cols line then
    some { id := wingetId cols line
           name := if wingetName cols line = "" then wingetId cols line
                   else wingetName cols line
           currentVersion := if wingetCurrent cols line = "" then "unknown"
                             else wingetCurrent cols line
           newVersion := wingetNew cols line
           status := (wingetStatusNotes statusNotes cols line).1
           source := wingetSource cols line
           notes := (wingetStatusNotes statusNotes cols line).2 }
  else none

/-- The `[dataStart, bound)` slice of the line list (empty when the bound,
which can run below `dataStart` in the first revision, does not exceed
it). -/
def lineSlice (lines : List String) (dataStart : Nat) (bound : Int) : List String :=
  if bound ≤ (dataStart : Int) then []
  else (lines.drop dataStart).take (bound.toNat - dataStart)

/-- Data rows contributed by section `s` of the first-revision parser.  The
row loop breaks at the first stop line; the data window ends 3 lines before
the next section's header (or at the end of output). -/
def v1SectionRows (lines : List String) (sections : List WingetSection) (s : Nat) :
    List ParsedPackage :=
  match sections.get? s with
  | none => []
  | some sec =>
    let cols := wingetCols (lines.getD sec.headerIndex "")
    let dataStart := sec.separatorIndex + 1
    let bound : Int :=
      match sections.get? (s + 1) with
      | some next => (next.headerIndex : Int) - 3
      | none => (lines.length : Int)
    let statusNotes : PackageStatus × Option String :=
      if sec.isPinned then (.pinned, some "Package is pinned") else (.available, none)
    ((lineSlice lines dataStart bound).takeWhile (fun l => !wingetStopLine l)).filterMap
      (wingetRow cols statusNotes)

/-- `parseWingetOutput` from `src/providers/parsers.ts` (first revision). -/
def parseWingetOutput (output : String) : List ParsedPackage :=
  let lines := jsSplit (normalizeNewlines output) '\n'
  let sections := v1Sections lines
  (List.range sections.length).flatMap (fun s => v1SectionRows lines sections s)

/-! ## `parseWingetOutput`, second revision (`src/unnamed/part_002`, lines 22–148) -/

namespace V2

/-- One discovered section of the second-revision parser. -/
structure WingetSection where
  headerIndex : Nat
  separatorIndex : Nat
  isPinned : Bool
  requiresExplicit : Bool
deriving Repr, DecidableEq

/-- Second-revision context scan: `for (j = max(0, i-10); j < i; j++)` over
the lowercased lines (`i` is the separator index, so the window is the 10
lines immediately preceding the separator — the 9 lines before the header
plus the header row itself). -/
def sectionScan (lines : List String) (i : Nat) : Bool × Bool :=
  ((List.range' (i - 10) (i - (i - 10))).any (fun j =>
      jsIncludes (jsToLower (lines.getD j "")) "pin that needs" ||
      jsIncludes (jsToLower (lines.getD j "")) "pins that prevent"),
   (List.range' (i - 10) (i - (i - 10))).any (fun j =>
      jsIncludes (jsToLower (lines.getD j "")) "explicit targeting" ||
      jsIncludes (jsToLower (lines.getD j "")) "require explicit"))

/-- Section discovery of the second-revision parser. -/
def sections (lines : List String) : List WingetSection :=
  (List.range lines.length).filterMap (fun i =>
    if isSeparatorLine (lines.getD i "") then
      if 0 < i then
        if isHeaderLine (lines.getD (i - 1) "") then
          some ⟨i - 1, i, (sectionScan lines i).1, (sectionScan lines i).2⟩
        else none
      else none
    else none)

/-- Data rows contributed by section `s` of the second-revision parser: the
data window runs to the next section's header (or end of output). -/
def sectionRows (lines : List String) (secs : List WingetSection) (s : Nat) :
    List ParsedPackage :=
  match secs.get? s with
  | none => []
  | some sec =>
    let cols := wingetCols (lines.getD sec.headerIndex "")
    let dataStart := sec.separatorIndex + 1
    let bound : Int :=
      match secs.get? (s + 1) with
      | some next => (next.headerIndex : Int)
      | none => (lines.length : Int)
    let statusNotes : PackageStatus × Option String :=
      if sec.isPinned then (.pinned, some "Package is pinned")
      else if sec.requiresExplicit then (.available, some "Requires explicit targeting")
      else (.available, none)
    ((lineSlice lines dataStart bound).takeWhile (fun l => !wingetStopLine l)).filterMap
      (wingetRow cols statusNotes)

/-- `parseWingetOutput` from the second revision of `parsers.ts`. -/
def parseWingetOutput (output : String) : List ParsedPackage :=
  let lines := jsSplit (normalizeNewlines output) '\n'
  let secs := sections lines
  (List.range secs.length).flatMap (fun s => sectionRows lines secs s)

end V2

/-! ## `JSON.parse` and `Object.entries`

`parseNpmJsonOutput` feeds its raw input to `JSON.parse` inside a
`try`/`catch`.  We model `JSON.parse` as a fuel-indexed total parser of the
JSON grammar returning `Option Js` (`none` = the exception).  Numbers are
kept as exact decimals (`JsNum`); distinguishing values this program
compares never needs double rounding.  Objects keep their raw key/value
pairs; duplicate keys resolve (last value, first position) and the
index-key/insertion-order enumeration rule is applied when entries are
taken, which matches what `JSON.parse` + `Object.entries` produce. -/

/-- A JavaScript value as produced by `JSON.parse`. -/
inductive Js where
  | null
  | bool (b : Bool)
  | num (q : JsNum)
  | str (s : String)
  | arr (elems : List Js)
  | obj (fields : List (String × Js))
deriving Repr

/-- Structural equality of parsed values (used only to state concrete
results; the program itself uses `jsStrictEq` below). -/
def Js.beq : Js → Js → Bool
  | .null, .null => true
  | .bool a, .bool b => a = b
  | .num a, .num b => a = b
  | .str a, .str b => a = b
  | .arr a, .arr b => beqList a b
  | .obj a, .obj b => beqFields a b
  | _, _ => false
where
  beqList : List Js → List Js → Bool
    | [], [] => true
    | x :: xs, y :: ys => Js.beq x y && beqList xs ys
    | _, _ => false
  beqFields : List (String × Js) → List (String × Js) → Bool
    | [], [] => true
    | (k, x) :: xs, (l, y) :: ys => k = l && Js.beq x y && beqFields xs ys
    | _, _ => false

instance : BEq Js := ⟨Js.beq⟩

/-- JSON whitespace (space, tab, LF, CR). -/
def jsonWs (c : Char) : Bool := c = ' ' || c = '\t' || c = '\n' || c = '\r'

def skipJsonWs (cs : List Char) : List Char := cs.dropWhile jsonWs

/-- Hex digit value. -/
def hexVal (c : Char) : Option Nat :=
  if c.isDigit then some (c.toNat - '0'.toNat)
  else if 'a' ≤ c ∧ c ≤ 'f' then some (c.toNat - 'a'.toNat + 10)
  else if 'A' ≤ c ∧ c ≤ 'F' then some (c.toNat - 'A'.toNat + 10)
  else none

/-- Code point from 4 hex digits. -/
def hex4 (a b c d : Char) : Option Nat :=
  match hexVal a, hexVal b, hexVal c, hexVal d with
  | some x, some y, some z, some w => some (((x * 16 + y) * 16 + z) * 16 + w)
  | _, _, _, _ => none

/-- JSON string body scanner (input starts after the opening quote).
`\uXXXX` escapes handle surrogate pairs; a lone surrogate (representable as
a bare UTF-16 code unit in JS but not as a Lean scalar value) is mapped to
U+FFFD — no input this development evaluates contains one. -/
def jStringGo : Nat → List Char → List Char → Option (List Char × List Char)
  | 0, _, _ => none
  | _ + 1, [], _ => none
  | _ + 1, '"' :: rest, acc => some (acc.reverse, rest)
  | f + 1, '\\' :: 'u' :: a :: b :: c :: d :: rest, acc =>
    (match hex4 a b c d with
     | none => none
     | some n =>
       if 0xD800 ≤ n ∧ n ≤ 0xDBFF then
         match rest with
         | '\\' :: 'u' :: e :: f2 :: g :: h :: rest2 =>
           (match hex4 e f2 g h with
            | some m =>
              if 0xDC00 ≤ m ∧ m ≤ 0xDFFF then
                jStringGo f rest2
                  (Char.ofNat (0x10000 + (n - 0xD800) * 0x400 + (m - 0xDC00)) :: acc)
              else jStringGo f rest2 ('�' :: Char.ofNat m :: acc)
            | none => none)
         | _ => jStringGo f rest ('�' :: acc)
       else if 0xDC00 ≤ n ∧ n ≤ 0xDFFF then jStringGo f rest ('�' :: acc)
       else jStringGo f rest (Char.ofNat n :: acc))
  | f + 1, '\\' :: e :: rest, acc =>
    (match e with
     | '"' => jStringGo f rest ('"' :: acc)
     | '\\' => jStringGo f rest ('\\' :: acc)
     | '/' => jStringGo f rest ('/' :: acc)
     | 'b' => jStringGo f rest ('\x08' :: acc)
     | 'f' => jStringGo f rest ('\x0c' :: acc)
     | 'n' => jStringGo f rest ('\n' :: acc)
     | 'r' => jStringGo f rest ('\r' :: acc)
     | 't' => jStringGo f rest ('\t' :: acc)
     | _ => none)
  | f + 1, c :: rest, acc =>
    if c.toNat < 0x20 then none else jStringGo f rest (c :: acc)

def parseJString (cs : List Char) : Option (String × List Char) :=
  (jStringGo (cs.length + 1) cs []).map (fun p => (String.mk p.1, p.2))

/-- JSON number (strict grammar: optional minus, `0` or a non-zero-led
digit run, optional fraction, optional exponent). -/
def parseJNumber (cs : List Char) : Option (JsNum × List Char) :=
  let (neg, cs1) : Bool × List Char :=
    match cs with
    | '-' :: t => (true, t)
    | t => (false, t)
  let intDigits := cs1.takeWhile Char.isDigit
  let rest1 := cs1.dropWhile Char.isDigit
  if intDigits = [] then none
  else if intDigits.length > 1 ∧ intDigits.headD '1' = '0' then none
  else
    let (fracDigits, rest2) : List Char × List Char :=
      match rest1 with
      | '.' :: r => (r.takeWhile Char.isDigit, r.dropWhile Char.isDigit)
      | r => ([], r)
    if (rest1.headD 'x') = '.' ∧ fracDigits = [] then none
    else
      let (expOk, expVal, rest3) : Bool × Int × List Char :=
        match rest2 with
        | 'e' :: r | 'E' :: r =>
          let (esign, r2) : Int × List Char :=
            match r with
            | '+' :: t => (1, t)
            | '-' :: t => (-1, t)
            | t => (1, t)
          let eds := r2.takeWhile Char.isDigit
          if eds = [] then (false, 0, r2)
          else (true, esign * (digitsToNat eds : Int), r2.dropWhile Char.isDigit)
        | r => (true, 0, r)
      if !expOk then none
      else
        let mantissa : JsNum :=
          ⟨(digitsToNat intDigits : Int) * pow10 fracDigits.length + (digitsToNat fracDigits : Int),
            pow10 fracDigits.length⟩
        let q := applyExp mantissa expVal
        some (if neg then ⟨-q.num, q.den⟩ else q, rest3)

/-- Parsing mode: a single value, the rest of an array, or the rest of an
object body. -/
inductive JMode where
  | value
  | elems
  | fields

/-- Result of a mode-indexed parse step. -/
inductive JOut where
  | val (v : Js)
  | list (vs : List Js)
  | pairs (ps : List (String × Js))

/-- Fuel-indexed JSON parser (2 fuel per consumed character suffices, see
`jsonParse`). -/
def jsonP : Nat → JMode → List Char → Option (JOut × List Char)
  | 0, _, _ => none
  | fuel + 1, .value, cs =>
    (match skipJsonWs cs with
     | '{' :: t =>
       (match skipJsonWs t with
        | '}' :: t3 => some (.val (.obj []), t3)
        | _ =>
          match jsonP fuel .fields t with
          | some (.pairs ps, r) => some (.val (.obj ps), r)
          | _ => none)
     | '[' :: t =>
       (match skipJsonWs t with
        | ']' :: t3 => some (.val (.arr []), t3)
        | _ =>
          match jsonP fuel .elems t with
          | some (.list vs, r) => some (.val (.arr vs), r)
          | _ => none)
     | '"' :: t => (parseJString t).map (fun p => (.val (.str p.1), p.2))
     | 't' :: 'r' :: 'u' :: 'e' :: t => some (.val (.bool true), t)
     | 'f' :: 'a' :: 'l' :: 's' :: 'e' :: t => some (.val (.bool false), t)
     | 'n' :: 'u' :: 'l' :: 'l' :: t => some (.val .null, t)
     | t => (parseJNumber t).map (fun p => (.val (.num p.1), p.2)))
  | fuel + 1, .elems, cs =>
    (match jsonP fuel .value cs with
     | some (.val v, r) =>
       (match skipJsonWs r with
        | ',' :: r3 =>
          (match jsonP fuel .elems r3 with
           | some (.list vs, r4) => some (.list (v :: vs), r4)
           | _ => none)
        | ']' :: r3 => some (.list [v], r3)
        | _ => none)
     | _ => none)
  | fuel + 1, .fields, cs =>
    (match skipJsonWs cs with
     | '"' :: t =>
       (match parseJString t with
        | some (k, r) =>
          (match skipJsonWs r with
           | ':' :: r3 =>
             (match jsonP fuel .value r3 with
              | some (.val v, r4) =>
                (match skipJsonWs r4 with
                 | ',' :: r6 =>
                   (match jsonP fuel .fields r6 with
                    | some (.pairs ps, r7) => some (.pairs ((k, v) :: ps), r7)
                    | _ => none)
                 | '}' :: r6 => some (.pairs [(k, v)], r6)
                 | _ => none)
              | _ => none)
           | _ => none)
        | none => none)
     | _ => none)

/-- `JSON.parse`: `none` models the thrown `SyntaxError` (and the whole
input must be consumed up to trailing whitespace). -/
def jsonParse (s : String) : Option Js :=
  match jsonP (2 * s.toList.length + 4) .value s.toList with
  | some (.val v, rest) => if (skipJsonWs rest).isEmpty then some v else none
  | _ => none

/-! ## `Object.entries` and property access -/

/-- Resolve duplicate keys the way `JSON.parse` builds its object: the last
value wins, the first occurrence fixes the position. -/
def canonFields (fields : List (String × Js)) : List (String × Js) :=
  fields.foldl
    (fun acc kv =>
      if acc.any (fun p => p.1 = kv.1) then
        acc.map (fun p => if p.1 = kv.1 then (p.1, kv.2) else p)
      else acc ++ [kv])
    []

/-- A JS "array index" property key: canonical decimal below 2^32 - 1. -/
def isArrayIndexKey (k : String) : Bool :=
  let cs := k.toList
  !cs.isEmpty && cs.all Char.isDigit && (k = "0" || cs.headD '0' ≠ '0') &&
    decide (digitsToNat cs < 4294967295)

/-- Insert into a list kept sorted by numeric key value (keys are distinct
after `canonFields`). -/
def insertIdxKey (kv : String × Js) : List (String × Js) → List (String × Js)
  | [] => [kv]
  | p :: ps =>
    if digitsToNat kv.1.toList < digitsToNat p.1.toList then kv :: p :: ps
    else p :: insertIdxKey kv ps

/-- JS own-property enumeration order: array-index keys ascending first,
then the remaining string keys in insertion order. -/
def jsEntries (fields : List (String × Js)) : List (String × Js) :=
  let canon := canonFields fields
  (canon.filter (fun p => isArrayIndexKey p.1)).foldl (fun acc kv => insertIdxKey kv acc) []
    ++ canon.filter (fun p => !isArrayIndexKey p.1)

/-- Decimal digits of a natural number (fuel-indexed worker). -/
def natDigitsGo : Nat → Nat → List Char
  | 0, _ => []
  | f + 1, n =>
    if n < 10 then [Char.ofNat ('0'.toNat + n)]
    else natDigitsGo f (n / 10) ++ [Char.ofNat ('0'.toNat + n % 10)]

def natToStr (n : Nat) : String := String.mk (natDigitsGo (n + 1) n)

/-- `Object.entries(x)`: key/value pairs of an object; index/element pairs
of an array; index/character pairs of a string; empty for numbers and
booleans.  (`Object.entries(null)` throws in JS; in the one call site the
exception is caught with no records accumulated, which coincides with the
empty list.) -/
def jsEntriesOf : Js → List (String × Js)
  | .obj fs => jsEntries fs
  | .arr vs => (vs.enum).map (fun p => (natToStr p.1, p.2))
  | .str s => (s.toList.enum).map (fun p => (natToStr p.1, Js.str (String.mk [p.2])))
  | _ => []

/-- Property access `x[k]` (`none` = `undefined`); only objects carry the
named properties this program reads. -/
def getField (v : Js) (k : String) : Option Js :=
  match v with
  | .obj fs => ((canonFields fs).find? (fun p => p.1 = k)).map (fun p => p.2)
  | _ => none

/-- JS truthiness of a possibly-`undefined` value. -/
def jsTruthy : Option Js → Bool
  | none => false
  | some .null => false
  | some (.bool b) => b
  | some (.num q) => decide (q.num ≠ 0)
  | some (.str s) => decide (s ≠ "")
  | some (.arr _) => true
  | some (.obj _) => true

/-- JS strict equality `===` between two values freshly produced by
`JSON.parse`: primitive values compare by value; objects and arrays compare
by reference, and two values built by one parse are never aliased, so they
are never `===`. -/
def jsStrictEq : Js → Js → Bool
  | .null, .null => true
  | .bool a, .bool b => a = b
  | .num a, .num b => jsNumValEq a b
  | .str a, .str b => a = b
  | _, _ => false

/-- Is the value JSON `null`? -/
def Js.isNull : Js → Bool
  | .null => true
  | _ => false

/-! ## `parseNpmJsonOutput` (`src/providers/parsers.ts`, lines 169–194) -/

/-- A record emitted by the npm/pnpm JSON parser.  The TS type annotates
`currentVersion`/`newVersion` as `string`, but nothing enforces it: the
parser stores whatever values the JSON carried, so the embedding keeps them
as `Js`. -/
structure NpmRecord where
  id : String
  name : String
  currentVersion : Js
  newVersion : Js
  status : PackageStatus
deriving Repr

/-- The loop body of `parseNpmJsonOutput`: walk the entries accumulating
records; a `null` value makes `pkg.current` throw a `TypeError`, which the
surrounding `catch` swallows — the records accumulated so far are
returned. -/
def npmEntriesGo : List (String × Js) → List NpmRecord → List NpmRecord
  | [], acc => acc
  | (name, info) :: rest, acc =>
    if info.isNull then acc
    else
      let cur := getField info "current"
      let lat := getField info "latest"
      if jsTruthy cur && jsTruthy lat && !(jsStrictEq (cur.getD .null) (lat.getD .null)) then
        npmEntriesGo rest
          (acc ++ [{ id := name, name := name, currentVersion := cur.getD .null,
                     newVersion := lat.getD .null, status := .available }])
      else npmEntriesGo rest acc

/-- Parse npm/pnpm outdated JSON output; the `provider` argument is unused
by the source as well. -/
def parseNpmJsonOutput (output : String) (provider : String) : List NpmRecord :=
  match jsonParse output with
  | none => []
  | some data => npmEntriesGo (jsEntriesOf data) []

/-- The per-entry emission rule, as the (amended) claim states it: a record
exactly when the entry's value carries truthy (non-empty) `current` and
`latest` fields that are strictly unequal. -/
def npmEmitRule (e : String × Js) : Option NpmRecord :=
  if jsTruthy (getField e.2 "current") && jsTruthy (getField e.2 "latest") &&
      !(jsStrictEq ((getField e.2 "current").getD .null) ((getField e.2 "latest").getD .null)) then
    some { id := e.1, name := e.1, currentVersion := (getField e.2 "current").getD .null,
           newVersion := (getField e.2 "latest").getD .null, status := .available }
  else none

/-- The pin-marker window exactly as the *claim* words it: the 10 lines
immediately preceding the section's **header** row (indices
`headerIndex - 10 … headerIndex - 1`).  The source instead scans the 10
lines preceding the **separator** row — the 9 lines before the header plus
the header itself. -/
def specPinWindow (lines : List String) (headerIndex : Nat) : Bool :=
  (List.range' (headerIndex - 10) (headerIndex - (headerIndex - 10))).any (fun j =>
    jsIncludes (jsToLower (lines.getD j "")) "pin that needs" ||
    jsIncludes (jsToLower (lines.getD j "")) "pins that prevent")

/-! ## The reconciliation engine (`checkAllProviders`, `src/index.ts`,
lines 163–211)

The effectful parts (config reads, spinner, `Promise.all`) are modelled by
passing their results in: the provider registry is a partial map from id to
the observable behavior of one check (`isAvailable` outcome and the settled
`checkUpdates` promise — `Except` models rejection).  `Promise.all`
preserves the order of `enabledIds`, and the result loop runs over it in
that order. -/

/-- `PackageUpdate` from `src/types.ts`. -/
structure PackageUpdate where
  id : String
  name : String
  currentVersion : String
  newVersion : String
  provider : String
  status : PackageStatus
  source : Option String := none
  notes : Option String := none
deriving Repr, DecidableEq

/-- `UpdateResult` from `src/types.ts`. -/
structure UpdateResult where
  success : Bool
  updated : List String
  failed : List String
  skipped : List String
deriving Repr, DecidableEq

/-- `CheckResult` from `src/index.ts`. -/
structure CheckResult where
  updates : List PackageUpdate
  checkedProviders : List String
deriving Repr, DecidableEq

/-- A provider as one run of `checkAllProviders` observes it. -/
structure Provider where
  isAvailable : Bool
  checkUpdates : Except String (List PackageUpdate)

/-- The per-provider check closure: a missing or unavailable provider
contributes `(id, available := false, [])`; an available provider whose
`checkUpdates` rejects has its failure swallowed into zero updates, but is
still flagged available. -/
def checkProvider (registry : String → Option Provider) (id : String) :
    String × Bool × List PackageUpdate :=
  match registry id with
  | none => (id, false, [])
  | some p =>
    if !p.isAvailable then (id, false, [])
    else
      match p.checkUpdates with
      | .ok us => (id, true, us)
      | .error _ => (id, true, [])

/-- The two `continue` guards of the result loop, as one keep-predicate:
drop ignored ids; drop records whose `newVersion` matches a *truthy*
(non-empty) persisted version. -/
def keepUpdate (ignoredPackages : List String) (installedVersions : String → Option String)
    (u : PackageUpdate) : Bool :=
  !(ignoredPackages.contains u.id) &&
    !(match installedVersions u.id with
      | some saved => decide (saved ≠ "") && decide (saved = u.newVersion)
      | none => false)

/-- `checkAllProviders`: fan out the checks over `enabledIds`, then fold
the settled results in order, collecting available provider ids and the
filtered updates. -/
def checkAllProviders (registry : String → Option Provider) (enabledIds : List String)
    (ignoredPackages : List String) (installedVersions : String → Option String) :
    CheckResult :=
  (enabledIds.map (checkProvider registry)).foldl
    (fun acc res =>
      { checkedProviders := acc.checkedProviders ++ (if res.2.1 then [res.1] else [])
        updates := acc.updates ++ res.2.2.filter (keepUpdate ignoredPackages installedVersions) })
    { updates := [], checkedProviders := [] }

/-- The record-level filter in the *claim's* wording: a record is kept
unless its id is in the ignored set or its `newVersion` equals a non-empty
persisted `installedVersions[id]` (the non-emptiness is the amendment: JS
truthiness keeps records whose persisted entry is the empty string). -/
def specKeep (ignored : List String) (installed : String → Option String)
    (u : PackageUpdate) : Bool :=
  !(ignored.contains u.id) &&
    !(decide (installed u.id = some u.newVersion) && decide (u.newVersion ≠ ""))

/-! ## The update orchestrator default (`BaseProvider.updateAll`,
`src/providers/base.ts`, lines 19–50)

`updatePackage` is modelled as a function from package id to the settled
promise (`Except` = raise).  The loop is embedded with an explicit call
log (`calls`) recording each id actually passed to `updatePackage`, so
that "pinned records are skipped without invoking `updatePackage`" is a
provable statement. -/

def isOkTrue : Except String Bool → Bool
  | .ok true => true
  | _ => false

/-- The `for` loop of `updateAll`. -/
def updateAllLoop (updatePackage : String → Except String Bool) :
    List PackageUpdate → UpdateResult → List String → UpdateResult × List String
  | [], acc, calls => (acc, calls)
  | u :: rest, acc, calls =>
    if u.status = .pinned then
      updateAllLoop updatePackage rest { acc with skipped := acc.skipped ++ [u.id] } calls
    else
      match updatePackage u.id with
      | .ok true =>
        updateAllLoop updatePackage rest
          { acc with updated := acc.updated ++ [u.id] } (calls ++ [u.id])
      | .ok false =>
        updateAllLoop updatePackage rest
          { acc with failed := acc.failed ++ [u.id], success := false } (calls ++ [u.id])
      | .error _ =>
        updateAllLoop updatePackage rest
          { acc with failed := acc.failed ++ [u.id], success := false } (calls ++ [u.id])

/-- `BaseProvider.updateAll` applied to the records `checkUpdates`
returned, paired with the list of ids `updatePackage` was invoked on. -/
def updateAll (updatePackage : String → Except String Bool) (updates : List PackageUpdate) :
    UpdateResult × List String :=
  updateAllLoop updatePackage updates { success := true, updated := [], failed := [], skipped := [] } []

/-! ## The WinGet adapter's `updatePackage` (second revision,
`src/providers/scoop.ts` companion document, lines 214–236)

The command runner is passed in as a function from argv to the settled
`CommandResult`; `hasGsudo` is the lazily-cached elevation-helper probe. -/

/-- `CommandResult` from `src/runner.ts`. -/
structure CommandResult where
  stdout : String
  stderr : String
  exitCode : Int
  success : Bool
deriving Repr, DecidableEq

namespace WingetProvider

/-- The argv built by `updatePackage` (`--force` appended when the option
is set). -/
def wingetArgs (packageId : String) (force : Bool) : List String :=
  ["winget", "upgrade", "--id", packageId, "--silent",
   "--accept-package-agreements", "--accept-source-agreements"] ++
    (if force then ["--force"] else [])

/-- `WingetProvider.updatePackage`: run unprivileged; if that failed and
`force` is set and gsudo is present, retry once elevated; the returned
value is `result.success` — a plain boolean in every case. -/
def updatePackage (run : List String → CommandResult) (hasGsudo : Bool)
    (packageId : String) (force : Bool) : Bool :=
  if !(run (wingetArgs packageId force)).success && force && hasGsudo then
    (run ("gsudo" :: wingetArgs packageId force)).success
  else
    (run (wingetArgs packageId force)).success

end WingetProvider

/-- A runner whose winget invocation fails while explicitly signalling that
the package cannot be upgraded through winget (permanently-unsupported
case). -/
def unsupportedRun : List String → CommandResult :=
  fun _ => { stdout := "No applicable upgrade found. This package must be updated through its own installer.",
             stderr := "", exitCode := 1, success := false }

/-- A runner whose winget invocation fails transiently (network error). -/
def transientRun : List String → CommandResult :=
  fun _ => { stdout := "", stderr := "0x80072ee7 : network error", exitCode := 1, success := false }

/-! # Theorems -/

/-! ## Generic list helpers -/

theorem dropWhile_eq_self_of_not {α} {p : α → Bool} {l : List α}
    (h : ∀ a ∈ l, p a = false) : l.dropWhile p = l := by
  cases l with
  | nil => rfl
  | cons a t => exact List.dropWhile_cons_of_neg (by simp [h a (by simp)])

theorem takeWhile_eq_self_of_all {α} {p : α → Bool} {l : List α}
    (h : ∀ a ∈ l, p a = true) : l.takeWhile p = l := by
  induction l with
  | nil => rfl
  | cons a t ih =>
    rw [List.takeWhile_cons_of_pos (h a (by simp))]
    rw [ih (fun x hx => h x (by simp [hx]))]

theorem dropWhile_eq_nil_of_all {α} {p : α → Bool} {l : List α}
    (h : ∀ a ∈ l, p a = true) : l.dropWhile p = [] := by
  induction l with
  | nil => rfl
  | cons a t ih =>
    rw [List.dropWhile_cons_of_pos (h a (by simp))]
    exact ih (fun x hx => h x (by simp [hx]))

/-! ## Facts about `jsNumber` on digit segments -/

theorem digit_not_ws (c : Char) (h : c.isDigit = true) : jsIsWs c = false := by
  simp only [Char.isDigit, decide_eq_true_eq, Bool.and_eq_true] at h
  simp only [jsIsWs, Char.isWhitespace, Bool.or_eq_false_iff]
  refine ⟨⟨⟨?_, ?_⟩, ?_⟩, ?_⟩ <;>
    · rw [Bool.eq_false_iff]
      intro hc
      simp at hc
      subst hc
      revert h
      decide

theorem jsTrimChars_of_digits (cs : List Char) (h : cs.all Char.isDigit = true) :
    jsTrimChars cs = cs := by
  have hws : ∀ a ∈ cs, jsIsWs a = false :=
    fun a ha => digit_not_ws a (List.all_eq_true.mp h a ha)
  unfold jsTrimChars
  rw [dropWhile_eq_self_of_not hws]
  rw [dropWhile_eq_self_of_not (fun a ha => hws a (List.mem_reverse.mp ha))]
  exact List.reverse_reverse cs

theorem jsNumberChars_digits (cs : List Char) (h1 : cs ≠ [])
    (h2 : cs.all Char.isDigit = true) :
    jsNumberChars cs = some ⟨(digitsToNat cs : Int), 1⟩ := by
  have hd : parseDecimal cs = some ⟨(digitsToNat cs : Int), 1⟩ := by
    unfold parseDecimal
    rw [takeWhile_eq_self_of_all (List.all_eq_true.mp h2)]
    rw [dropWhile_eq_nil_of_all (List.all_eq_true.mp h2)]
    simp [h1, parseExpSuffix, applyExp, pow10]
  unfold jsNumberChars
  rw [jsTrimChars_of_digits cs h2]
  cases cs with
  | nil => exact absurd rfl h1
  | cons c t =>
    have hc : c.isDigit = true := (List.all_eq_true.mp h2) c (by simp)
    have hplus : c ≠ '+' := by rintro rfl; revert hc; decide
    have hminus : c ≠ '-' := by rintro rfl; revert hc; decide
    split
    · simp_all
    · rename_i r heq
      exact absurd (by exact heq : c :: t = '+' :: r) (by simp [hplus])
    · rename_i r heq
      exact absurd (by exact heq : c :: t = '-' :: r) (by simp [hminus])
    · exact hd

/-! ## The comparison loop against the `"unknown"` segment list `[none]` -/

/-- Abbreviation for the segment-value function on well-formed segments. -/
def segVal (s : String) : Option JsNum := some ⟨(segNat s : Int), 1⟩

theorem jsNumLt_zero_segVal (s : String) :
    jsNumLt ⟨0, 1⟩ (orZero (segVal s)) = decide (segNat s ≠ 0) := by
  simp only [jsNumLt, orZero, segVal, Option.getD]
  by_cases hs : segNat s = 0
  · simp [hs]
  · have hpos : 0 < segNat s := Nat.pos_of_ne_zero hs
    have hlt : (0 : Int) * 1 < (segNat s : Int) * 1 := by omega
    simp [hlt, hs, hpos]

theorem jsNumLt_segVal_zero (s : String) :
    jsNumLt (orZero (segVal s)) ⟨0, 1⟩ = false := by
  simp only [jsNumLt, orZero, segVal, Option.getD]
  have : ¬ ((segNat s : Int) * 1 < 0 * 1) := by omega
  simp [this]

theorem segCmpNilLeft_segs (ss : List String) :
    segCmpNilLeft (ss.map segVal) =
      if ss.any (fun s => decide (segNat s ≠ 0)) then some true else none := by
  induction ss with
  | nil => rfl
  | cons s t ih =>
    show (if jsNumLt ⟨0, 1⟩ (orZero (segVal s)) then some true
          else if jsNumLt (orZero (segVal s)) ⟨0, 1⟩ then some false
          else segCmpNilLeft (t.map segVal)) = _
    rw [jsNumLt_zero_segVal, jsNumLt_segVal_zero, ih, List.any_cons]
    by_cases hs : segNat s = 0 <;> simp [hs]

theorem segCmpNilRight_segs (ss : List String) :
    segCmpNilRight (ss.map segVal) =
      if ss.any (fun s => decide (segNat s ≠ 0)) then some false else none := by
  induction ss with
  | nil => rfl
  | cons s t ih =>
    show (if jsNumLt (orZero (segVal s)) ⟨0, 1⟩ then some true
          else if jsNumLt ⟨0, 1⟩ (orZero (segVal s)) then some false
          else segCmpNilRight (t.map segVal)) = _
    rw [jsNumLt_zero_segVal, jsNumLt_segVal_zero, ih, List.any_cons]
    by_cases hs : segNat s = 0 <;> simp [hs]

theorem segCmp_unknown_left (ss : List String) :
    segCmp [none] (ss.map segVal) =
      if ss.any (fun s => decide (segNat s ≠ 0)) then some true else none := by
  cases ss with
  | nil => rfl
  | cons s t =>
    show (if jsNumLt (orZero none) (orZero (segVal s)) then some true
          else if jsNumLt (orZero (segVal s)) (orZero none) then some false
          else segCmp [] (t.map segVal)) = _
    rw [show (orZero none : JsNum) = ⟨0, 1⟩ from rfl]
    rw [jsNumLt_zero_segVal, jsNumLt_segVal_zero]
    rw [show segCmp [] (t.map segVal) = segCmpNilLeft (t.map segVal) from rfl]
    rw [segCmpNilLeft_segs t, List.any_cons]
    by_cases hs : segNat s = 0 <;> simp [hs]

theorem segCmp_map_nilRight (ss : List String) :
    segCmp (ss.map segVal) [] =
      if ss.any (fun s => decide (segNat s ≠ 0)) then some false else none := by
  cases ss with
  | nil => rfl
  | cons s t =>
    show (if jsNumLt (orZero (segVal s)) ⟨0, 1⟩ then some true
          else if jsNumLt ⟨0, 1⟩ (orZero (segVal s)) then some false
          else segCmpNilRight (t.map segVal)) = _
    rw [jsNumLt_zero_segVal, jsNumLt_segVal_zero]
    rw [segCmpNilRight_segs t, List.any_cons]
    by_cases hs : segNat s = 0 <;> simp [hs]

theorem segCmp_unknown_right (ss : List String) :
    segCmp (ss.map segVal) [none] =
      if ss.any (fun s => decide (segNat s ≠ 0)) then some false else none := by
  cases ss with
  | nil => rfl
  | cons s t =>
    show (if jsNumLt (orZero (segVal s)) (orZero none) then some true
          else if jsNumLt (orZero none) (orZero (segVal s)) then some false
          else segCmp (t.map segVal) []) = _
    rw [show (orZero none : JsNum) = ⟨0, 1⟩ from rfl]
    rw [jsNumLt_zero_segVal, jsNumLt_segVal_zero]
    rw [segCmp_map_nilRight t, List.any_cons]
    by_cases hs : segNat s = 0 <;> simp [hs]

theorem versionParts_wellFormed (v : String) (h : wellFormedVersion v = true) :
    versionParts v = (baseSegs v).map segVal := by
  unfold versionParts
  apply List.map_congr_left
  intro s hs
  have hseg : isDigitSeg s = true := by
    unfold wellFormedVersion at h
    exact List.all_eq_true.mp h s hs
  simp only [isDigitSeg, Bool.and_eq_true, Bool.not_eq_true', List.isEmpty_eq_false] at hseg
  exact jsNumberChars_digits s.toList hseg.1 hseg.2

/-! ## Claim C2 -/

/-- **C2** (amended): for well-formed versions the literal `"unknown"`
compares exactly like an all-zero version: `isNewerVersion "unknown" v` is
true iff some base segment of `v` is nonzero, and `isNewerVersion v
"unknown"` is true iff every base segment of `v` is zero *and* `v` carries a
prerelease suffix (otherwise false). -/
theorem isNewerVersion_unknown_baseline (v : String) (h : wellFormedVersion v = true) :
    isNewerVersion "unknown" v = (baseSegs v).any (fun s => decide (segNat s ≠ 0))
    ∧ isNewerVersion v "unknown"
      = ((baseSegs v).all (fun s => decide (segNat s = 0)) && jsIncludes v "-") := by
  have hv := versionParts_wellFormed v h
  have hu : versionParts "unknown" = [none] := by decide
  have hud : jsIncludes "unknown" "-" = false := by decide
  constructor
  · unfold isNewerVersion
    rw [hu, hv, segCmp_unknown_left]
    by_cases hany : (baseSegs v).any (fun s => decide (segNat s ≠ 0)) = true
    · rw [if_pos hany, hany]
    · rw [Bool.not_eq_true] at hany
      rw [if_neg (by rw [hany]; exact Bool.false_ne_true), hany]
      simp [hud]
  · unfold isNewerVersion
    rw [hu, hv, segCmp_unknown_right]
    by_cases hany : (baseSegs v).any (fun s => decide (segNat s ≠ 0)) = true
    · have hall : (baseSegs v).all (fun s => decide (segNat s = 0)) = false := by
        rcases List.any_eq_true.mp hany with ⟨s, hs, hval⟩
        simp only [decide_eq_true_eq] at hval
        exact List.all_eq_false.mpr ⟨s, hs, by simp [hval]⟩
      rw [if_pos hany, hall]
      simp
    · rw [Bool.not_eq_true] at hany
      have hall : (baseSegs v).all (fun s => decide (segNat s = 0)) = true := by
        rw [List.all_eq_true]
        intro s hs
        have := List.any_eq_false.mp hany s hs
        simpa using this
      rw [if_neg (by rw [hany]; exact Bool.false_ne_true), hall]
      cases hinc : jsIncludes v "-" <;> simp [hud, hinc]

/-- Witness for `isNewerVersion_unknown_baseline` at `v = "1.0.0"`. -/
theorem isNewerVersion_unknown_baseline_witness :
    isNewerVersion "unknown" "1.0.0" = true ∧ isNewerVersion "1.0.0" "unknown" = false := by
  have h := isNewerVersion_unknown_baseline "1.0.0" (by decide)
  refine ⟨?_, ?_⟩
  · rw [h.1]; decide
  · rw [h.2]; decide

/-- **C2** counterexample: `"unknown"` does *not* compare older than every
well-formed version — against the all-zero version `"0.0.0"` it compares
equal (`false`), and the prerelease `"0.0.0-beta"` even compares *newer*
than `"unknown"`. -/
theorem isNewerVersion_unknown_claim_false :
    isNewerVersion "unknown" "0.0.0" = false
    ∧ isNewerVersion "0.0.0-beta" "unknown" = true := by decide

/-! ## Claim C6: equal bases and the prerelease rule -/

theorem nilLeft_none_iff_nilRight_none (ns : List (Option JsNum)) :
    segCmpNilLeft ns = none ↔ segCmpNilRight ns = none := by
  induction ns with
  | nil => simp [segCmpNilLeft, segCmpNilRight]
  | cons n t ih =>
    simp only [segCmpNilLeft, segCmpNilRight]
    by_cases hA : jsNumLt ⟨0, 1⟩ (orZero n) <;>
      by_cases hB : jsNumLt (orZero n) ⟨0, 1⟩ <;>
        simp [hA, hB, ih]

theorem segCmp_none_symm (xs ys : List (Option JsNum)) (h : segCmp xs ys = none) :
    segCmp ys xs = none := by
  induction xs generalizing ys with
  | nil =>
    cases ys with
    | nil => rfl
    | cons n t =>
      simp only [segCmp, segCmpNilLeft] at h ⊢
      by_cases hA : jsNumLt ⟨0, 1⟩ (orZero n)
      · simp [hA] at h
      · by_cases hB : jsNumLt (orZero n) ⟨0, 1⟩
        · simp [hA, hB] at h
        · simp only [hA, hB] at h ⊢
          simp only [if_false, Bool.false_eq_true, ite_false] at h ⊢
          exact (nilLeft_none_iff_nilRight_none t).mp h
  | cons c cs ih =>
    cases ys with
    | nil =>
      simp only [segCmp, segCmpNilLeft] at h ⊢
      by_cases hB : jsNumLt (orZero c) ⟨0, 1⟩
      · simp [hB] at h
      · by_cases hA : jsNumLt ⟨0, 1⟩ (orZero c)
        · simp [hA, hB] at h
        · simp only [hA, hB, if_false, Bool.false_eq_true, ite_false] at h ⊢
          exact (nilLeft_none_iff_nilRight_none cs).mpr h
    | cons n t =>
      simp only [segCmp] at h ⊢
      by_cases hA : jsNumLt (orZero c) (orZero n)
      · simp [hA] at h
      · by_cases hB : jsNumLt (orZero n) (orZero c)
        · simp [hA, hB] at h
        · simp only [hA, hB, if_false, Bool.false_eq_true, ite_false] at h ⊢
          exact ih t h

theorem forall_nat_split (P : Nat → Prop) :
    (∀ i, P i) ↔ P 0 ∧ ∀ j, P (j + 1) :=
  ⟨fun h => ⟨h 0, fun j => h (j + 1)⟩,
   fun h i => by cases i with | zero => exact h.1 | succ j => exact h.2 j⟩

theorem notLt_notGt_iff_valEq (a b : JsNum) :
    (jsNumLt a b = false ∧ jsNumLt b a = false) ↔ jsNumValEq a b = true := by
  simp only [jsNumLt, jsNumValEq, decide_eq_true_eq, decide_eq_false_iff_not]
  omega

/-- The padded segment value the loop compares at index `i`. -/
def segValAt (xs : List (Option JsNum)) (i : Nat) : JsNum :=
  orZero (xs.getD i none)

theorem segValAt_nil (i : Nat) : segValAt [] i = ⟨0, 1⟩ := rfl

theorem segValAt_cons_zero (x : Option JsNum) (xs : List (Option JsNum)) :
    segValAt (x :: xs) 0 = orZero x := rfl

theorem segValAt_cons_succ (x : Option JsNum) (xs : List (Option JsNum)) (j : Nat) :
    segValAt (x :: xs) (j + 1) = segValAt xs j := by
  simp [segValAt]

theorem segCmpNilLeft_eq_none_iff (ns : List (Option JsNum)) :
    segCmpNilLeft ns = none ↔ ∀ i, jsNumValEq ⟨0, 1⟩ (segValAt ns i) = true := by
  induction ns with
  | nil =>
    simp only [segCmpNilLeft, segValAt_nil]
    constructor
    · intro _ i; decide
    · intro _; trivial
  | cons n t ih =>
    rw [forall_nat_split]
    simp only [segCmpNilLeft, segValAt_cons_zero, segValAt_cons_succ]
    by_cases hA : jsNumLt ⟨0, 1⟩ (orZero n)
    · have : ¬ jsNumValEq ⟨0, 1⟩ (orZero n) = true := fun he =>
        by have := (notLt_notGt_iff_valEq _ _).mpr he; simp [this.1] at hA
      simp [hA, this]
    · by_cases hB : jsNumLt (orZero n) ⟨0, 1⟩
      · have : ¬ jsNumValEq ⟨0, 1⟩ (orZero n) = true := fun he =>
          by have := (notLt_notGt_iff_valEq _ _).mpr he; simp [this.2] at hB
        simp [hA, hB, this]
      · have hval : jsNumValEq ⟨0, 1⟩ (orZero n) = true :=
          (notLt_notGt_iff_valEq _ _).mp ⟨by simpa using hA, by simpa using hB⟩
        simp [hA, hB, hval, ih]

theorem segCmpNilRight_eq_none_iff (cs : List (Option JsNum)) :
    segCmpNilRight cs = none ↔ ∀ i, jsNumValEq (segValAt cs i) ⟨0, 1⟩ = true := by
  induction cs with
  | nil =>
    simp only [segCmpNilRight, segValAt_nil]
    constructor
    · intro _ i; decide
    · intro _; trivial
  | cons c t ih =>
    rw [forall_nat_split]
    simp only [segCmpNilRight, segValAt_cons_zero, segValAt_cons_succ]
    by_cases hB : jsNumLt (orZero c) ⟨0, 1⟩
    · have : ¬ jsNumValEq (orZero c) ⟨0, 1⟩ = true := fun he =>
        by have := (notLt_notGt_iff_valEq _ _).mpr he; simp [this.1] at hB
      simp [hB, this]
    · by_cases hA : jsNumLt ⟨0, 1⟩ (orZero c)
      · have : ¬ jsNumValEq (orZero c) ⟨0, 1⟩ = true := fun he =>
          by have := (notLt_notGt_iff_valEq _ _).mpr he; simp [this.2] at hA
        simp [hA, hB, this]
      · have hval : jsNumValEq (orZero c) ⟨0, 1⟩ = true :=
          (notLt_notGt_iff_valEq _ _).mp ⟨by simpa using hB, by simpa using hA⟩
        simp [hA, hB, hval, ih]

/-- Interpretation of the C6 hypothesis: `segCmp` falls through (`none`)
exactly when every compared segment pair — missing trailing segments read as
`0` — has equal numeric value.  This is the code-level meaning of "the base
versions have equal numeric segment values". -/
theorem segCmp_eq_none_iff (xs ys : List (Option JsNum)) :
    segCmp xs ys = none
      ↔ ∀ i, jsNumValEq (segValAt xs i) (segValAt ys i) = true := by
  induction xs generalizing ys with
  | nil =>
    have : ∀ i, segValAt ([] : List (Option JsNum)) i = ⟨0, 1⟩ := segValAt_nil
    simp only [segCmp, this]
    exact segCmpNilLeft_eq_none_iff ys
  | cons c cs ih =>
    cases ys with
    | nil =>
      rw [forall_nat_split]
      simp only [segCmp, segValAt_cons_zero, segValAt_cons_succ, segValAt_nil]
      by_cases hB : jsNumLt (orZero c) ⟨0, 1⟩
      · have : ¬ jsNumValEq (orZero c) ⟨0, 1⟩ = true := fun he =>
          by have := (notLt_notGt_iff_valEq _ _).mpr he; simp [this.1] at hB
        simp [hB, this]
      · by_cases hA : jsNumLt ⟨0, 1⟩ (orZero c)
        · have : ¬ jsNumValEq (orZero c) ⟨0, 1⟩ = true := fun he =>
            by have := (notLt_notGt_iff_valEq _ _).mpr he; simp [this.2] at hA
          simp [hA, hB, this]
        · have hval : jsNumValEq (orZero c) ⟨0, 1⟩ = true :=
            (notLt_notGt_iff_valEq _ _).mp ⟨by simpa using hB, by simpa using hA⟩
          simp [hA, hB, hval, segCmpNilRight_eq_none_iff cs]
    | cons n t =>
      rw [forall_nat_split]
      simp only [segCmp, segValAt_cons_zero, segValAt_cons_succ]
      by_cases hA : jsNumLt (orZero c) (orZero n)
      · have : ¬ jsNumValEq (orZero c) (orZero n) = true := fun he =>
          by have := (notLt_notGt_iff_valEq _ _).mpr he; simp [this.1] at hA
        simp [hA, this]
      · by_cases hB : jsNumLt (orZero n) (orZero c)
        · have : ¬ jsNumValEq (orZero c) (orZero n) = true := fun he =>
            by have := (notLt_notGt_iff_valEq _ _).mpr he; simp [this.2] at hB
          simp [hA, hB, this]
        · have hval : jsNumValEq (orZero c) (orZero n) = true :=
            (notLt_notGt_iff_valEq _ _).mp ⟨by simpa using hA, by simpa using hB⟩
          simp [hA, hB, hval, ih t]

/-- **C6**: when the two base versions have equal numeric segment values
(loop fall-through, see `segCmp_eq_none_iff`), `isNewerVersion` is decided
by the prerelease rule: with no suffixes neither is newer; with exactly one
suffix the suffix-free version is newer; with two suffixes neither is
newer.  (A "prerelease suffix" is the code's notion: the original string
contains a `-`.) -/
theorem equal_base_prerelease_rule (a b : String)
    (h : segCmp (versionParts a) (versionParts b) = none) :
    ((jsIncludes a "-" = false ∧ jsIncludes b "-" = false) →
        isNewerVersion a b = false ∧ isNewerVersion b a = false)
    ∧ ((jsIncludes a "-" = true ∧ jsIncludes b "-" = false) →
        isNewerVersion a b = true ∧ isNewerVersion b a = false)
    ∧ ((jsIncludes a "-" = true ∧ jsIncludes b "-" = true) →
        isNewerVersion a b = false ∧ isNewerVersion b a = false) := by
  have hsym := segCmp_none_symm _ _ h
  unfold isNewerVersion
  rw [h, hsym]
  refine ⟨?_, ?_, ?_⟩ <;> rintro ⟨h1, h2⟩ <;> simp [h1, h2]

/-- Witness for `equal_base_prerelease_rule` at `a = "1.0-rc1"`,
`b = "1.0.0"` (equal bases `1.0` vs `1.0.0`, exactly one suffix). -/
theorem equal_base_prerelease_rule_witness :
    isNewerVersion "1.0-rc1" "1.0.0" = true ∧ isNewerVersion "1.0.0" "1.0-rc1" = false := by
  have h := equal_base_prerelease_rule "1.0-rc1" "1.0.0" (by decide)
  exact h.2.1 ⟨by decide, by decide⟩

/-! ## Claim C8: the pnpm table fallback rule -/

/-- **C8** (amended): `parsePnpmTableOutput` processes every non-header
line by the spec's row rule — at least 3 tokens, first token id/name,
second token current, *fourth* token latest, emit only when they differ —
but tokenizes on runs of **one** or more whitespace characters, not the
claimed two-or-more. -/
theorem pnpm_table_row_rule (output : String) :
    parsePnpmTableOutput output = (jsSplit output '\n').filterMap (pnpmRowSpec jsWsTokens) := rfl

/-- **C8** counterexample: a data row with single-space separators is one
token under the claim's ≥2-whitespace tokenization (fewer than 3 tokens, so
the claim predicts no record), yet the parser emits a record from it. -/
theorem pnpm_table_two_ws_claim_false :
    parsePnpmTableOutput "pkg 1.0.0 1.5.0 2.0.0"
      = [{ id := "pkg", name := "pkg", currentVersion := "1.0.0", newVersion := "2.0.0",
           status := .available }]
    ∧ twoWsTokens "pkg 1.0.0 1.5.0 2.0.0" = ["pkg 1.0.0 1.5.0 2.0.0"]
    ∧ (jsSplit "pkg 1.0.0 1.5.0 2.0.0" '\n').filterMap (pnpmRowSpec twoWsTokens) = [] := by
  decide

/-! ## Claim C7: the JSON parser -/

theorem npmEntriesGo_eq (entries : List (String × Js)) (acc : List NpmRecord) :
    npmEntriesGo entries acc
      = acc ++ (entries.takeWhile (fun e => !e.2.isNull)).filterMap npmEmitRule := by
  induction entries generalizing acc with
  | nil => simp [npmEntriesGo]
  | cons e rest ih =>
    obtain ⟨name, info⟩ := e
    by_cases hn : info.isNull
    · simp [npmEntriesGo, hn, List.takeWhile_cons]
    · rw [List.takeWhile_cons]
      simp only [hn, Bool.not_false, if_true, ite_true, List.filterMap_cons]
      cases hc : (jsTruthy (getField info "current") && jsTruthy (getField info "latest") &&
          !(jsStrictEq ((getField info "current").getD .null) ((getField info "latest").getD .null)))
      · have hrule : npmEmitRule (name, info) = none := by
          unfold npmEmitRule
          simp only [hc, if_false, Bool.false_eq_true, ite_false]
        simp only [npmEntriesGo, hn, hc, if_false, Bool.false_eq_true, ite_false, hrule]
        exact ih acc
      · have hrule : npmEmitRule (name, info)
            = some { id := name, name := name,
                     currentVersion := (getField info "current").getD .null,
                     newVersion := (getField info "latest").getD .null,
                     status := .available } := by
          unfold npmEmitRule
          simp only [hc, if_true, ite_true]
        simp only [npmEntriesGo, hn, hc, if_true, ite_true, if_false, Bool.false_eq_true,
          ite_false, hrule]
        rw [ih]
        simp

/-- **C7** (amended): `parseNpmJsonOutput` is total — a failed
`JSON.parse` yields `[]`; on a parsed value it walks the entries in JS
enumeration order emitting one record per entry whose value carries
*truthy* (present and non-empty) `current` and `latest` fields that are
strictly unequal, but it stops at the first `null` entry value (whose
property access throws; the swallowed exception keeps only the records
accumulated so far).  On the spec's examples: the
`typescript`/`lodash` object yields exactly the `typescript` record, and
`"not valid json"` yields `[]`. -/
theorem parseNpmJsonOutput_characterization :
    (∀ s prov, jsonParse s = none → parseNpmJsonOutput s prov = [])
    ∧ (∀ s prov d, jsonParse s = some d →
        parseNpmJsonOutput s prov
          = ((jsEntriesOf d).takeWhile (fun e => !e.2.isNull)).filterMap npmEmitRule)
    ∧ parseNpmJsonOutput
        "\x7b\"typescript\":\x7b\"current\":\"5.2.0\",\"latest\":\"5.3.0\"\x7d,\"lodash\":\x7b\"current\":\"4.17.21\",\"latest\":\"4.17.21\"\x7d\x7d"
        "npm"
      = [{ id := "typescript", name := "typescript", currentVersion := .str "5.2.0",
           newVersion := .str "5.3.0", status := .available }]
    ∧ parseNpmJsonOutput "not valid json" "npm" = [] := by
  refine ⟨?_, ?_, ?_, ?_⟩
  · intro s prov h
    unfold parseNpmJsonOutput
    rw [h]
  · intro s prov d h
    unfold parseNpmJsonOutput
    rw [h]
    exact (npmEntriesGo_eq _ []).trans (by simp)
  · rfl
  · rfl

/-- Witness for `parseNpmJsonOutput_characterization`: both hypothesis
conjuncts applied at concrete inputs. -/
theorem parseNpmJsonOutput_characterization_witness :
    parseNpmJsonOutput "not valid json" "npm" = []
    ∧ parseNpmJsonOutput "\x7b\"a\":\x7b\"current\":\"1.0\",\"latest\":\"2.0\"\x7d\x7d" "npm"
      = ((jsEntriesOf (Js.obj [("a", Js.obj [("current", .str "1.0"), ("latest", .str "2.0")])])).takeWhile
          (fun e => !e.2.isNull)).filterMap npmEmitRule :=
  ⟨parseNpmJsonOutput_characterization.1 "not valid json" "npm" rfl,
   parseNpmJsonOutput_characterization.2.1 _ "npm" _ rfl⟩

/-- **C7** counterexample: two syntactically valid JSON objects on which
the claim's "one record per key whose value carries current and latest
fields that differ" fails — a `null` value for key `a` aborts the walk and
drops the differing key `b`, and an empty-string `current` (present,
different from `latest`) is falsy and never emitted. -/
theorem parseNpmJsonOutput_claim_false :
    parseNpmJsonOutput "\x7b\"a\":null,\"b\":\x7b\"current\":\"1\",\"latest\":\"2\"\x7d\x7d" "npm" = []
    ∧ (jsonParse "\x7b\"a\":null,\"b\":\x7b\"current\":\"1\",\"latest\":\"2\"\x7d\x7d").isSome = true
    ∧ parseNpmJsonOutput "\x7b\"a\":\x7b\"current\":\"\",\"latest\":\"1\"\x7d\x7d" "npm" = []
    ∧ (jsonParse "\x7b\"a\":\x7b\"current\":\"\",\"latest\":\"1\"\x7d\x7d").isSome = true := by
  exact ⟨rfl, rfl, rfl, rfl⟩

/-! ## Claim C1: identical-version suppression across the parsers -/

theorem wingetRow_versions (cols : WingetCols) (sn : PackageStatus × Option String)
    (line : String) (r : ParsedPackage) (h : wingetRow cols sn line = some r) :
    r.currentVersion ≠ r.newVersion ∨ r.currentVersion = "unknown" := by
  unfold wingetRow at h
  split at h
  · exact absurd h (by simp)
  split at h
  · exact absurd h (by simp)
  split at h
  · exact absurd h (by simp)
  split at h
  · rename_i hneq
    rw [Option.some_inj] at h
    subst h
    by_cases hcur : wingetCurrent cols line = ""
    · right
      simp [hcur]
    · left
      simpa [hcur] using hneq
  · exact absurd h (by simp)

theorem wingetRow_status (cols : WingetCols) (sn : PackageStatus × Option String)
    (line : String) (r : ParsedPackage) (h : wingetRow cols sn line = some r) :
    (r.status = sn.1 ∧ r.notes = sn.2)
    ∨ (r.status = .unknown ∧ r.notes = some "Current version unknown") := by
  unfold wingetRow at h
  split at h
  · exact absurd h (by simp)
  split at h
  · exact absurd h (by simp)
  split at h
  · exact absurd h (by simp)
  split at h
  · rw [Option.some_inj] at h
    subst h
    unfold wingetStatusNotes
    by_cases hunk : jsToLower (wingetCurrent cols line) = "unknown"
        ∨ wingetCurrent cols line = ""
    · right
      simp [hunk]
    · left
      simp [hunk]
  · exact absurd h (by simp)

theorem npmEmitRule_strict_neq (e : String × Js) (r : NpmRecord)
    (h : npmEmitRule e = some r) :
    jsStrictEq r.currentVersion r.newVersion = false := by
  unfold npmEmitRule at h
  split at h
  · rename_i hc
    rw [Option.some_inj] at h
    subst h
    simp only [Bool.and_eq_true, Bool.not_eq_true'] at hc
    exact hc.2
  · exact absurd h (by simp)

/-- **C1** (amended): the identical-version discipline holds for
`parseWingetOutput` (up to the `"unknown"` normalization: an emitted record
has textually different versions unless an empty current-version column was
normalized to `"unknown"`, which can coincide with an `Available` column
reading `"unknown"`), for `parseNpmJsonOutput` (emitted `current`/`latest`
values are strictly unequal; for string values, textually different) and
for `parsePnpmTableOutput`; `parseProtoOutput` and `parsePsModulesOutput`
perform no such check and emit identical-version records — the claim's own
example lines each produce one. -/
theorem parsers_identical_version_discipline :
    (∀ output r, r ∈ parseWingetOutput output →
        r.currentVersion ≠ r.newVersion ∨ r.currentVersion = "unknown")
    ∧ (∀ s prov r, r ∈ parseNpmJsonOutput s prov →
        jsStrictEq r.currentVersion r.newVersion = false)
    ∧ (∀ output r, r ∈ parsePnpmTableOutput output →
        r.currentVersion ≠ r.newVersion)
    ∧ parseProtoOutput "node - 1.0.0 -> 1.0.0"
      = [{ id := "node", name := "node", currentVersion := "1.0.0", newVersion := "1.0.0",
           status := .available }]
    ∧ parsePsModulesOutput "Mod|2.0|2.0"
      = [{ id := "Mod", name := "Mod", currentVersion := "2.0", newVersion := "2.0",
           status := .available }] := by
  refine ⟨?_, ?_, ?_, by decide, by decide⟩
  · intro output r hr
    simp only [parseWingetOutput, List.mem_flatMap] at hr
    obtain ⟨s, _, hs⟩ := hr
    rw [v1SectionRows] at hs
    rcases hget : (v1Sections (jsSplit (normalizeNewlines output) '\n')).get? s with _ | sec
    · rw [hget] at hs
      exact absurd hs (by simp)
    · rw [hget] at hs
      simp only [List.mem_filterMap] at hs
      obtain ⟨line, _, hrow⟩ := hs
      exact wingetRow_versions _ _ _ _ hrow
  · intro s prov r hr
    unfold parseNpmJsonOutput at hr
    rcases hj : jsonParse s with _ | d
    · rw [hj] at hr
      exact absurd hr (by simp)
    · rw [hj] at hr
      change r ∈ npmEntriesGo (jsEntriesOf d) [] at hr
      rw [npmEntriesGo_eq] at hr
      simp only [List.nil_append, List.mem_filterMap] at hr
      obtain ⟨e, _, hrule⟩ := hr
      exact npmEmitRule_strict_neq e r hrule
  · intro output r hr
    rw [pnpm_table_row_rule] at hr
    simp only [List.mem_filterMap] at hr
    obtain ⟨line, _, hrow⟩ := hr
    unfold pnpmRowSpec at hrow
    split at hrow
    · exact absurd hrow (by simp)
    split at hrow
    · split at hrow
      · rename_i hcond
        rw [Option.some_inj] at hrow
        subst hrow
        exact hcond.1
      · exact absurd hrow (by simp)
    · exact absurd hrow (by simp)

/-- **C1** counterexample: the claim's own example inputs refute it — the
proto line `node - 1.0.0 -> 1.0.0` and the pipe line `Mod|2.0|2.0` each
produce a record whose two version fields are textually identical, and even
`parseWingetOutput` can emit an identical-version record when an empty
current-version column is normalized to `"unknown"` while the `Available`
column reads `unknown`. -/
theorem parsers_identical_version_claim_false :
    (parseProtoOutput "node - 1.0.0 -> 1.0.0").length = 1
    ∧ (parsePsModulesOutput "Mod|2.0|2.0").length = 1
    ∧ ((parseProtoOutput "node - 1.0.0 -> 1.0.0").map
        (fun r => decide (r.currentVersion = r.newVersion))) = [true]
    ∧ ((parsePsModulesOutput "Mod|2.0|2.0").map
        (fun r => decide (r.currentVersion = r.newVersion))) = [true]
    ∧ ((parseWingetOutput
          "Name     Id       Version   Available\n-------------------------------------\nFoo      Foo.Bar            unknown\n").map
        (fun r => decide (r.currentVersion = r.newVersion))) = [true] := by
  decide

/-! ## Claim C9: pinned-section detection in the second-revision parser -/

/-- **C9** (amended): the second-revision `parseWingetOutput` detects a
pinned section by scanning the 10 lines immediately preceding the
*separator* row — equivalently the 9 lines before the header plus the
header row itself — for the lowercased marker phrases "pin that needs" /
"pins that prevent"; every record emitted from such a section gets
`status = pinned` and `notes = "Package is pinned"` **except** rows whose
current-version column is empty or reads "unknown", which get
`status = unknown` and `notes = "Current version unknown"`. -/
theorem winget_pinned_section_rule :
    (∀ lines i, (V2.sectionScan lines i).1 = true
        ↔ ∃ j, i - 10 ≤ j ∧ j < i ∧
            (jsIncludes (jsToLower (lines.getD j "")) "pin that needs" = true
             ∨ jsIncludes (jsToLower (lines.getD j "")) "pins that prevent" = true))
    ∧ (∀ lines secs s sec r, secs.get? s = some sec → sec.isPinned = true →
        r ∈ V2.sectionRows lines secs s →
        (r.status = .pinned ∧ r.notes = some "Package is pinned")
        ∨ (r.status = .unknown ∧ r.notes = some "Current version unknown")) := by
  constructor
  · intro lines i
    constructor
    · intro h
      simp only [V2.sectionScan, List.any_eq_true] at h
      obtain ⟨j, hj, hmark⟩ := h
      rw [List.mem_range'] at hj
      obtain ⟨k, hk, rfl⟩ := hj
      refine ⟨i - 10 + 1 * k, by omega, by omega, ?_⟩
      simpa using hmark
    · rintro ⟨j, h1, h2, hm⟩
      simp only [V2.sectionScan, List.any_eq_true]
      refine ⟨j, ?_, by simpa using hm⟩
      rw [List.mem_range']
      exact ⟨j - (i - 10), by omega, by omega⟩
  · intro lines secs s sec r hget hpin hr
    simp only [V2.sectionRows, hget, hpin, if_true, ite_true, List.mem_filterMap] at hr
    obtain ⟨line, _, hrow⟩ := hr
    exact wingetRow_status _ _ _ _ hrow

set_option maxRecDepth 40000 in
/-- Witness for `winget_pinned_section_rule`: a concrete pinned section
(marker directly above the header) whose single data row is classified by
the theorem. -/
theorem winget_pinned_section_rule_witness :
    (({ id := "Foo.Bar", name := "Foo", currentVersion := "1.0", newVersion := "2.0",
        status := .pinned, source := none,
        notes := some "Package is pinned" } : ParsedPackage).status = PackageStatus.pinned
      ∧ ({ id := "Foo.Bar", name := "Foo", currentVersion := "1.0", newVersion := "2.0",
           status := .pinned, source := none,
           notes := some "Package is pinned" } : ParsedPackage).notes = some "Package is pinned")
    ∨ (({ id := "Foo.Bar", name := "Foo", currentVersion := "1.0", newVersion := "2.0",
          status := .pinned, source := none,
          notes := some "Package is pinned" } : ParsedPackage).status = PackageStatus.unknown
      ∧ ({ id := "Foo.Bar", name := "Foo", currentVersion := "1.0", newVersion := "2.0",
           status := .pinned, source := none,
           notes := some "Package is pinned" } : ParsedPackage).notes
         = some "Current version unknown") :=
  winget_pinned_section_rule.2
    (jsSplit (normalizeNewlines
      "The following packages have a pin that needs to be removed to upgrade:\nName     Id       Version   Available\n-------------------------------------\nFoo      Foo.Bar  1.0       2.0\n") '\n')
    (V2.sections (jsSplit (normalizeNewlines
      "The following packages have a pin that needs to be removed to upgrade:\nName     Id       Version   Available\n-------------------------------------\nFoo      Foo.Bar  1.0       2.0\n") '\n'))
    0 ⟨1, 2, true, false⟩ _ (by decide) (by decide) (by decide)

set_option maxRecDepth 40000 in
/-- **C9** counterexample: (1) a marker placed exactly 10 lines before the
header row lies inside the claim's window but outside the code's (which is
anchored one line lower, at the separator): the section's record comes out
`available` with no notes, not `pinned`; (2) in a genuinely pinned section
a row whose current-version column reads "Unknown" is emitted with
`status = unknown` and `notes = "Current version unknown"`, not
`pinned`/"Package is pinned" as the claim asserts for every record of the
section. -/
theorem winget_pinned_section_claim_false :
    specPinWindow (jsSplit (normalizeNewlines
        "pins that prevent upgrade\nf1\nf2\nf3\nf4\nf5\nf6\nf7\nf8\nf9\nName     Id       Version   Available\n-------------------------------------\nFoo      Foo.Bar  1.0       2.0\n") '\n')
      10 = true
    ∧ V2.parseWingetOutput
        "pins that prevent upgrade\nf1\nf2\nf3\nf4\nf5\nf6\nf7\nf8\nf9\nName     Id       Version   Available\n-------------------------------------\nFoo      Foo.Bar  1.0       2.0\n"
      = [{ id := "Foo.Bar", name := "Foo", currentVersion := "1.0", newVersion := "2.0",
           status := .available, source := none, notes := none }]
    ∧ V2.parseWingetOutput
        "The following packages have a pin that needs to be removed to upgrade:\nName     Id       Version   Available\n-------------------------------------\nFoo      Foo.Bar  Unknown   2.0\n"
      = [{ id := "Foo.Bar", name := "Foo", currentVersion := "Unknown", newVersion := "2.0",
           status := .unknown, source := none, notes := some "Current version unknown" }] := by
  refine ⟨by decide, by decide, by decide⟩

/-! ## Claims C3 and C4: the reconciliation engine -/

theorem checkAll_foldl (ig : List String) (inst : String → Option String)
    (results : List (String × Bool × List PackageUpdate)) (acc : CheckResult) :
    results.foldl
      (fun acc res =>
        { checkedProviders := acc.checkedProviders ++ (if res.2.1 then [res.1] else [])
          updates := acc.updates ++ res.2.2.filter (keepUpdate ig inst) })
      acc
      = { updates := acc.updates ++ (results.flatMap (fun res => res.2.2)).filter (keepUpdate ig inst)
          checkedProviders :=
            acc.checkedProviders ++ (results.filter (fun res => res.2.1)).map (fun res => res.1) } := by
  induction results generalizing acc with
  | nil => simp
  | cons r rs ih =>
    rw [List.foldl_cons, ih]
    simp only [List.flatMap_cons, List.filter_append, List.filter_cons]
    cases hb : r.2.1 <;> simp [hb, List.append_assoc]

theorem keepUpdate_eq_specKeep (ig : List String) (inst : String → Option String)
    (u : PackageUpdate) : keepUpdate ig inst u = specKeep ig inst u := by
  unfold keepUpdate specKeep
  rcases hi : inst u.id with _ | saved
  · simp [hi]
  · by_cases h1 : saved = u.newVersion
    · subst h1
      simp [hi, eq_comm]
    · simp [hi, h1, fun h => h1 (Option.some_inj.mp h)]

/-- **C3** (amended): the final update list is exactly the merged record
list of all provider checks filtered by two status-independent rules — drop
records whose id is in the ignored set, and drop records whose
`newVersion` equals a **non-empty** persisted `installedVersions[id]` (JS
truthiness: an empty-string persisted version never drops anything); all
other records are kept, in order. -/
theorem checkAll_filters (registry : String → Option Provider) (enabled : List String)
    (ig : List String) (inst : String → Option String) :
    (checkAllProviders registry enabled ig inst).updates
      = ((enabled.map (checkProvider registry)).flatMap (fun res => res.2.2)).filter
          (specKeep ig inst) := by
  unfold checkAllProviders
  rw [checkAll_foldl]
  simp only [List.nil_append]
  exact List.filter_congr (fun u _ => keepUpdate_eq_specKeep ig inst u)

/-- **C3** counterexample: a record whose `newVersion` (the empty string)
exactly equals the persisted `installedVersions[id]` (also the empty
string) is *kept*, because the empty saved version is falsy — the claim
says every such record is dropped. -/
theorem checkAll_empty_persisted_claim_false :
    (checkAllProviders
        (fun pid =>
          if pid = "p1" then
            some ⟨true, .ok [{ id := "X", name := "X", currentVersion := "1.0",
                               newVersion := "", provider := "p1", status := .available }]⟩
          else none)
        ["p1"] [] (fun pkg => if pkg = "X" then some "" else none)).updates
      = [{ id := "X", name := "X", currentVersion := "1.0", newVersion := "",
           provider := "p1", status := .available }]
    ∧ (fun pkg => if pkg = "X" then some "" else none) "X"
        = some ({ id := "X", name := "X", currentVersion := "1.0", newVersion := "",
                  provider := "p1", status := .available } : PackageUpdate).newVersion := by
  exact ⟨by decide, rfl⟩

theorem checkProvider_fst (registry : String → Option Provider) (pid : String) :
    (checkProvider registry pid).1 = pid := by
  unfold checkProvider
  rcases registry pid with _ | p
  · rfl
  · by_cases hp : p.isAvailable <;> rcases hcu : p.checkUpdates with us | e <;> simp [hp, hcu]

theorem checkAll_checked (registry : String → Option Provider) (enabled : List String)
    (ig : List String) (inst : String → Option String) :
    (checkAllProviders registry enabled ig inst).checkedProviders
      = ((enabled.map (checkProvider registry)).filter (fun res => res.2.1)).map
          (fun res => res.1) := by
  unfold checkAllProviders
  rw [checkAll_foldl]
  simp

/-- **C4**: an enabled provider whose `checkUpdates` rejects contributes
zero records but is still listed in `checkedProviders`; a provider that is
missing from the registry or whose `isAvailable` is false never appears in
`checkedProviders`; and in the concrete two-provider scenario (one
erroring, one returning a single available record) the result has exactly
one record while `checkedProviders` holds both ids. -/
theorem checkAll_error_isolation :
    (∀ (registry : String → Option Provider) (enabled ig : List String)
        (inst : String → Option String) (id : String) (p : Provider) (e : String),
        registry id = some p → p.isAvailable = true → p.checkUpdates = .error e →
        (checkProvider registry id).2.2 = []
        ∧ (id ∈ enabled → id ∈ (checkAllProviders registry enabled ig inst).checkedProviders))
    ∧ (∀ (registry : String → Option Provider) (enabled ig : List String)
        (inst : String → Option String) (id : String),
        (registry id = none ∨ ∃ p, registry id = some p ∧ p.isAvailable = false) →
        id ∉ (checkAllProviders registry enabled ig inst).checkedProviders)
    ∧ ((checkAllProviders
          (fun pid =>
            if pid = "p1" then some ⟨true, .error "check failed"⟩
            else if pid = "p2" then
              some ⟨true, .ok [{ id := "pkg", name := "pkg", currentVersion := "1.0",
                                 newVersion := "2.0", provider := "p2", status := .available }]⟩
            else none)
          ["p1", "p2"] [] (fun _ => none)).updates.length = 1
      ∧ (checkAllProviders
          (fun pid =>
            if pid = "p1" then some ⟨true, .error "check failed"⟩
            else if pid = "p2" then
              some ⟨true, .ok [{ id := "pkg", name := "pkg", currentVersion := "1.0",
                                 newVersion := "2.0", provider := "p2", status := .available }]⟩
            else none)
          ["p1", "p2"] [] (fun _ => none)).checkedProviders = ["p1", "p2"]) := by
  refine ⟨?_, ?_, by decide, by decide⟩
  · intro registry enabled ig inst pid p e hreg hav herr
    have hcp : checkProvider registry pid = (pid, true, []) := by
      unfold checkProvider
      rw [hreg]
      simp [hav, herr]
    refine ⟨by rw [hcp], fun hmem => ?_⟩
    rw [checkAll_checked]
    refine List.mem_map.mpr ⟨checkProvider registry pid, ?_, checkProvider_fst registry pid⟩
    refine List.mem_filter.mpr ⟨List.mem_map_of_mem _ hmem, ?_⟩
    rw [hcp]
  · intro registry enabled ig inst pid hbad hmem
    rw [checkAll_checked] at hmem
    obtain ⟨res, hres, hfst⟩ := List.mem_map.mp hmem
    have hflag := (List.mem_filter.mp hres).2
    obtain ⟨eid, _, heq⟩ := List.mem_map.mp (List.mem_filter.mp hres).1
    have heid : eid = pid := by
      rw [← heq, checkProvider_fst] at hfst
      exact hfst
    subst heid
    rw [← heq] at hflag
    have hfalse : (checkProvider registry eid).2.1 = false := by
      unfold checkProvider
      rcases hbad with hnone | ⟨p, hp, hpav⟩
      · rw [hnone]
      · rw [hp]
        simp [hpav]
    rw [hfalse] at hflag
    exact absurd hflag (by simp)

/-- Witness for `checkAll_error_isolation`: the two quantified conjuncts
applied to the erroring provider `p1` of the concrete scenario and to an
unregistered id. -/
theorem checkAll_error_isolation_witness :
    ((checkProvider
        (fun pid =>
          if pid = "p1" then some ⟨true, .error "check failed"⟩
          else if pid = "p2" then
            some ⟨true, .ok [{ id := "pkg", name := "pkg", currentVersion := "1.0",
                               newVersion := "2.0", provider := "p2", status := .available }]⟩
          else none)
        "p1").2.2 = []
      ∧ "p1" ∈ (checkAllProviders
          (fun pid =>
            if pid = "p1" then some ⟨true, .error "check failed"⟩
            else if pid = "p2" then
              some ⟨true, .ok [{ id := "pkg", name := "pkg", currentVersion := "1.0",
                                 newVersion := "2.0", provider := "p2", status := .available }]⟩
            else none)
          ["p1", "p2"] [] (fun _ => none)).checkedProviders)
    ∧ "ghost" ∉ (checkAllProviders
        (fun pid =>
          if pid = "p1" then some ⟨true, .error "check failed"⟩
          else if pid = "p2" then
            some ⟨true, .ok [{ id := "pkg", name := "pkg", currentVersion := "1.0",
                               newVersion := "2.0", provider := "p2", status := .available }]⟩
          else none)
        ["p1", "p2"] [] (fun _ => none)).checkedProviders := by
  constructor
  · have h := checkAll_error_isolation.1
      (fun pid =>
        if pid = "p1" then some ⟨true, .error "check failed"⟩
        else if pid = "p2" then
          some ⟨true, .ok [{ id := "pkg", name := "pkg", currentVersion := "1.0",
                             newVersion := "2.0", provider := "p2", status := .available }]⟩
        else none)
      ["p1", "p2"] [] (fun _ => none) "p1" ⟨true, .error "check failed"⟩ "check failed"
      rfl rfl rfl
    exact ⟨h.1, h.2 (by decide)⟩
  · exact checkAll_error_isolation.2.1
      (fun pid =>
        if pid = "p1" then some ⟨true, .error "check failed"⟩
        else if pid = "p2" then
          some ⟨true, .ok [{ id := "pkg", name := "pkg", currentVersion := "1.0",
                             newVersion := "2.0", provider := "p2", status := .available }]⟩
        else none)
      ["p1", "p2"] [] (fun _ => none) "ghost" (Or.inl rfl)

/-! ## Claim C10: the `updateAll` default -/

theorem updateAllLoop_spec (upd : String → Except String Bool) (updates : List PackageUpdate)
    (acc : UpdateResult) (calls : List String) :
    updateAllLoop upd updates acc calls
      = ({ success := acc.success &&
             (updates.filter (fun u => decide (u.status ≠ .pinned) && !isOkTrue (upd u.id))).isEmpty
           updated := acc.updated ++
             (updates.filter (fun u => decide (u.status ≠ .pinned) && isOkTrue (upd u.id))).map (fun u => u.id)
           failed := acc.failed ++
             (updates.filter (fun u => decide (u.status ≠ .pinned) && !isOkTrue (upd u.id))).map (fun u => u.id)
           skipped := acc.skipped ++
             (updates.filter (fun u => decide (u.status = .pinned))).map (fun u => u.id) },
         calls ++ (updates.filter (fun u => decide (u.status ≠ .pinned))).map (fun u => u.id)) := by
  induction updates generalizing acc calls with
  | nil => simp [updateAllLoop]
  | cons u rest ih =>
    by_cases hp : u.status = .pinned
    · rw [show updateAllLoop upd (u :: rest) acc calls
          = updateAllLoop upd rest { acc with skipped := acc.skipped ++ [u.id] } calls by
            simp [updateAllLoop, hp]]
      rw [ih]
      simp [List.filter_cons, hp, List.append_assoc]
    · rcases hu : upd u.id with e | b
      · rw [show updateAllLoop upd (u :: rest) acc calls
            = updateAllLoop upd rest
                { acc with failed := acc.failed ++ [u.id], success := false } (calls ++ [u.id]) by
              simp [updateAllLoop, hp, hu]]
        rw [ih]
        simp [List.filter_cons, hp, hu, isOkTrue, List.append_assoc]
      · cases b
        · rw [show updateAllLoop upd (u :: rest) acc calls
              = updateAllLoop upd rest
                  { acc with failed := acc.failed ++ [u.id], success := false } (calls ++ [u.id]) by
                simp [updateAllLoop, hp, hu]]
          rw [ih]
          simp [List.filter_cons, hp, hu, isOkTrue, List.append_assoc]
        · rw [show updateAllLoop upd (u :: rest) acc calls
              = updateAllLoop upd rest
                  { acc with updated := acc.updated ++ [u.id] } (calls ++ [u.id]) by
                simp [updateAllLoop, hp, hu]]
          rw [ih]
          simp [List.filter_cons, hp, hu, isOkTrue, List.append_assoc]

theorem filter_partition3_length (upd : String → Except String Bool)
    (l : List PackageUpdate) :
    (l.filter (fun u => decide (u.status ≠ .pinned) && isOkTrue (upd u.id))).length
      + (l.filter (fun u => decide (u.status ≠ .pinned) && !isOkTrue (upd u.id))).length
      + (l.filter (fun u => decide (u.status = .pinned))).length = l.length := by
  induction l with
  | nil => rfl
  | cons u rest ih =>
    rw [List.filter_cons, List.filter_cons, List.filter_cons]
    by_cases hp : u.status = .pinned
    · have h1 : (decide (u.status ≠ .pinned) && isOkTrue (upd u.id)) = false := by simp [hp]
      have h2 : (decide (u.status ≠ .pinned) && !isOkTrue (upd u.id)) = false := by simp [hp]
      have h3 : decide (u.status = .pinned) = true := by simp [hp]
      rw [h1, h2, h3]
      simp only [Bool.false_eq_true, if_false, if_true, ite_true, ite_false, List.length_cons]
      omega
    · by_cases ht : isOkTrue (upd u.id) = true
      · have h1 : (decide (u.status ≠ .pinned) && isOkTrue (upd u.id)) = true := by simp [hp, ht]
        have h2 : (decide (u.status ≠ .pinned) && !isOkTrue (upd u.id)) = false := by simp [hp, ht]
        have h3 : decide (u.status = .pinned) = false := by simp [hp]
        rw [h1, h2, h3]
        simp only [Bool.false_eq_true, if_false, if_true, ite_true, ite_false, List.length_cons]
        omega
      · rw [Bool.not_eq_true] at ht
        have h1 : (decide (u.status ≠ .pinned) && isOkTrue (upd u.id)) = false := by simp [hp, ht]
        have h2 : (decide (u.status ≠ .pinned) && !isOkTrue (upd u.id)) = true := by simp [hp, ht]
        have h3 : decide (u.status = .pinned) = false := by simp [hp]
        rw [h1, h2, h3]
        simp only [Bool.false_eq_true, if_false, if_true, ite_true, ite_false, List.length_cons]
        omega

/-- **C10**: `updateAll` routes each record's id to exactly one of
`updated`/`failed`/`skipped` — pinned records to `skipped` without
`updatePackage` ever being invoked for them (the call log is exactly the
non-pinned records' ids, in order), records whose `updatePackage` resolves
`true` to `updated`, and records whose `updatePackage` resolves `false` or
rejects to `failed` — and `success` is true iff `failed` is empty. -/
theorem updateAll_partition (upd : String → Except String Bool) (updates : List PackageUpdate) :
    (updateAll upd updates).1.updated
      = (updates.filter (fun u => decide (u.status ≠ .pinned) && isOkTrue (upd u.id))).map (fun u => u.id)
    ∧ (updateAll upd updates).1.failed
      = (updates.filter (fun u => decide (u.status ≠ .pinned) && !isOkTrue (upd u.id))).map (fun u => u.id)
    ∧ (updateAll upd updates).1.skipped
      = (updates.filter (fun u => decide (u.status = .pinned))).map (fun u => u.id)
    ∧ (updateAll upd updates).2
      = (updates.filter (fun u => decide (u.status ≠ .pinned))).map (fun u => u.id)
    ∧ (updateAll upd updates).1.updated.length + (updateAll upd updates).1.failed.length
        + (updateAll upd updates).1.skipped.length = updates.length
    ∧ ((updateAll upd updates).1.success = true ↔ (updateAll upd updates).1.failed = []) := by
  have h := updateAllLoop_spec upd updates { success := true, updated := [], failed := [], skipped := [] } []
  unfold updateAll
  rw [h]
  refine ⟨by simp, by simp, by simp, by simp, ?_, ?_⟩
  · simp only [List.nil_append, List.length_map]
    exact filter_partition3_length upd updates
  · simp [List.map_eq_nil_iff]

/-! ## Claim C5: no distinguished failure value in `updatePackage` -/

/-- **C5** (code-bug evidence): `WingetProvider.updatePackage` returns a
plain boolean in every case — a run whose output explicitly signals that
the package cannot be upgraded through winget yields the same value
(`false`) as a transient network failure, so the caller cannot tell the
two apart. -/
theorem winget_updatePackage_no_distinguished_failure :
    WingetProvider.updatePackage unsupportedRun false "Example.App" false = false
    ∧ WingetProvider.updatePackage transientRun false "Example.App" false = false
    ∧ WingetProvider.updatePackage unsupportedRun false "Example.App" false
      = WingetProvider.updatePackage transientRun false "Example.App" false := by
  exact ⟨rfl, rfl, rfl⟩

end UpdateManager
